import Mathlib

/-! noeqd: a shallow embedding of `main.go`.

The identifier generator (`nextId`), the stream server loop (`serve`) and the
9p file handlers (`CtlFile`, `DataFile`, `StatsFile`) are translated into Lean
functions over explicit state.  Go's `int64` values are integers wrapped into
`[-2^63, 2^63)`, `uint64` values are naturals taken modulo `2^64`, bytes are
naturals below 256.
-/

namespace Noeqd

/-! ## Machine integers -/

/-- Two's-complement wrap of an integer into the `int64` range. -/
def wrap64 (x : Int) : Int := (x + 2 ^ 63) % 2 ^ 64 - 2 ^ 63

/-- Wrap of a natural number into the `uint64` range. -/
def wrapU64 (x : Nat) : Nat := x % 2 ^ 64

/-- Go's `x << k` on `int64`. -/
def shl64 (x : Int) (k : Nat) : Int := wrap64 (x * 2 ^ k)

/-- Go's `x >> k` on `int64` (arithmetic shift). -/
def shr64 (x : Int) (k : Nat) : Int := x / 2 ^ k

/-- Go's `byte(x)` conversion of an `int64`: the low eight bits. -/
def byteOf (x : Int) : Nat := (x % 256).toNat

/-- The value is representable as an `int64`. -/
def IsInt64 (x : Int) : Prop := -2 ^ 63 ≤ x ∧ x < 2 ^ 63

instance (x : Int) : Decidable (IsInt64 x) := by
  unfold IsInt64; infer_instance

/-! ## Constants (`main.go` lines 19-34) -/

def workerIdBits : Nat := 5
def datacenterIdBits : Nat := 5
def maxWorkerId : Int := Int.xor (-1) (shl64 (-1) workerIdBits)
def maxDatacenterId : Int := Int.xor (-1) (shl64 (-1) datacenterIdBits)
def sequenceBits : Nat := 12
def workerIdShift : Nat := sequenceBits
def datacenterIdShift : Nat := sequenceBits + workerIdBits
def timestampLeftShift : Nat := sequenceBits + workerIdBits + datacenterIdBits
def sequenceMask : Int := Int.xor (-1) (shl64 (-1) sequenceBits)
def twepoch : Int := 1288834974657
def idsz : Nat := 17

/-! ## Process state -/

deriving instance DecidableEq for Except

/-- Errors returned by the handlers. -/
inductive Err where
  /-- The error `fmt.Errorf("time is moving backwards, waiting until %d\n", *lts)`. -/
  | clockRewind (waitUntil : Int)
  /-- The error `p.Error` with the text "cannot create data file". -/
  | cannotCreateDataFile
  /-- The error of `io.ReadFull` at the end of the input. -/
  | eof
  /-- The error of `w.Write`. -/
  | writeFailed
  /-- The error `p.Error` with the text "can not create dir". -/
  | cannotCreateDir
  /-- The error `p.Error` with the text "not enough buffer space for result". -/
  | notEnoughBuffer
  deriving DecidableEq, Repr

/-- The flags and package-level variables of `main.go`, together with the
readings that successive calls of `milliseconds()` will observe. -/
structure State where
  wid : Int
  did : Int
  lts : Int
  seq : Int
  rqs : Nat
  ids : Nat
  clock : List Int
  deriving DecidableEq, Repr

/-- How a call ends: it returns a value and a new state, or the clock readings
run out while it is still waiting (`blocked`), or the process exits through
`log.Fatalf` (`exit`), or a run-time panic is raised (`panic`). -/
inductive Outcome (α : Type) where
  | ret (a : α) (s : State)
  | blocked
  | exit
  | panic
  deriving DecidableEq, Repr

/-- The state at process start: flag defaults `-t -1`, `seq = 0`, counters 0. -/
def initState (wid did : Int) (clock : List Int) : State :=
  { wid := wid, did := did, lts := -1, seq := 0, rqs := 0, ids := 0, clock := clock }

/-! ## `nextId` (`main.go` lines 393-421) -/

/-- The loop `for ts <= *lts { ts = milliseconds() }`. -/
def spinWait (lts : Int) : Int → List Int → Option (Int × List Int)
  | ts, [] => if ts ≤ lts then none else some (ts, [])
  | ts, t :: rest => if ts ≤ lts then spinWait lts t rest else some (ts, t :: rest)

/-- The expression
`((ts - twepoch) << timestampLeftShift) | (*did << datacenterIdShift) | (*wid << workerIdShift) | seq`. -/
def packId (ts did wid seq : Int) : Int :=
  Int.lor (Int.lor (Int.lor (shl64 (wrap64 (ts - twepoch)) timestampLeftShift)
    (shl64 did datacenterIdShift)) (shl64 wid workerIdShift)) seq

/-- The tail of `nextId` from the rewind check on, with `ts` and `seq` settled. -/
def nextIdFinish (s : State) (ts seq : Int) (clock : List Int) : Outcome (Except Err Int) :=
  if ts < s.lts then
    .ret (.error (.clockRewind s.lts)) { s with seq := seq, clock := clock }
  else
    .ret (.ok (packId ts s.did s.wid seq)) { s with lts := ts, seq := seq, clock := clock }

/-- The function `nextId`. -/
def nextId (s : State) : Outcome (Except Err Int) :=
  match s.clock with
  | [] => .blocked
  | ts :: clock =>
    if s.lts = ts then
      let seq := Int.land (wrap64 (s.seq + 1)) sequenceMask
      if seq = 0 then
        match spinWait s.lts ts clock with
        | none => .blocked
        | some (ts, clock) => nextIdFinish s ts seq clock
      else nextIdFinish s ts seq clock
    else nextIdFinish s ts 0 clock

/-- Successive calls of `nextId`, each on the state the previous one left:
the results in call order and the final state; `none` if a call never returns. -/
def nextIds : Nat → State → Option (List (Except Err Int) × State)
  | 0, s => some ([], s)
  | n + 1, s =>
    match nextId s with
    | .ret r s1 =>
      match nextIds n s1 with
      | some (rs, s2) => some (r :: rs, s2)
      | none => none
    | _ => none

/-- The identifiers among a list of results. -/
def okValues : List (Except Err Int) → List Int
  | [] => []
  | .ok v :: rs => v :: okValues rs
  | .error _ :: rs => okValues rs

/-! ## Field extraction from an identifier -/

def timestampOf (id : Int) : Int := shr64 id timestampLeftShift
def datacenterOf (id : Int) : Int := Int.land (shr64 id datacenterIdShift) maxDatacenterId
def workerOf (id : Int) : Int := Int.land (shr64 id workerIdShift) maxWorkerId
def sequenceOf (id : Int) : Int := Int.land id sequenceMask

/-- The reading is within the 41-bit range above the epoch. -/
def InRange (t : Int) : Prop := 0 ≤ t - twepoch ∧ t - twepoch < 2 ^ 41

/-! ## Byte strings -/

/-- Go's `copy(dst, src)`: the destination after the copy. -/
def copyInto (dst src : List Nat) : List Nat :=
  src.take dst.length ++ dst.drop src.length

/-- The ASCII codes of the decimal digits of `n` (`%d` on an unsigned value). -/
def decimal (n : Nat) : List Nat := (Nat.toDigits 10 n).map Char.toNat

/-- The ASCII code of the lowercase hexadecimal digit `d` (`d < 16`). -/
def hexDigit (d : Nat) : Nat := if d < 10 then 48 + d else 87 + d

/-- The verb `%02x` applied to a byte: two lowercase hexadecimal digits. -/
def hex2 (b : Nat) : List Nat := [hexDigit (b / 16), hexDigit (b % 16)]

/-- The value of an ASCII hexadecimal digit. -/
def hexVal (c : Nat) : Option Nat :=
  if 48 ≤ c ∧ c ≤ 57 then some (c - 48)
  else if 97 ≤ c ∧ c ≤ 102 then some (c - 87)
  else none

/-- Parse a string of lowercase hexadecimal digits, most significant first. -/
def parseHexFrom : Nat → List Nat → Option Nat
  | acc, [] => some acc
  | acc, c :: cs =>
    match hexVal c with
    | some d => parseHexFrom (acc * 16 + d) cs
    | none => none

def parseHex (cs : List Nat) : Option Nat := parseHexFrom 0 cs

/-- The eight bytes `byte(id>>56), byte(id>>48), ..., byte(id)`. -/
def bigEndian (id : Int) : List Nat :=
  [byteOf (shr64 id 56), byteOf (shr64 id 48), byteOf (shr64 id 40), byteOf (shr64 id 32),
   byteOf (shr64 id 24), byteOf (shr64 id 16), byteOf (shr64 id 8), byteOf id]

/-- Read bytes as an unsigned big-endian number. -/
def decodeBE (bs : List Nat) : Nat := bs.foldl (fun acc b => acc * 256 + b) 0

/-- Read an eight-byte chunk as a big-endian `int64`. -/
def decodeId (bs : List Nat) : Int := wrap64 (decodeBE bs)

/-! ## `serve` (`main.go` lines 348-387) -/

/-- The assignments `b[off+0] = byte(id >> 56)` ... `b[off+7] = byte(id)`. -/
def putId (b : List Nat) (off : Nat) (id : Int) : List Nat :=
  (((((((b.set (off + 0) (byteOf (shr64 id 56))).set (off + 1) (byteOf (shr64 id 48))).set
    (off + 2) (byteOf (shr64 id 40))).set (off + 3) (byteOf (shr64 id 32))).set
    (off + 4) (byteOf (shr64 id 24))).set (off + 5) (byteOf (shr64 id 16))).set
    (off + 6) (byteOf (shr64 id 8))).set (off + 7) (byteOf id)

/-- The loop `for i := uint(0); i < n; i++` of `serve`, entered at index `i`
with `k = n - i` iterations to go and buffer `b`. -/
def serveFill : Nat → Nat → List Nat → State → Outcome (Except Err (List Nat))
  | 0, _, b, s => .ret (.ok b) s
  | k + 1, i, b, s =>
    match nextId s with
    | .ret (.ok id) s1 => serveFill k (i + 1) (putId b (i * 8) id) s1
    | .ret (.error e) s1 => .ret (.error e) s1
    | .blocked => .blocked
    | .exit => .exit
    | .panic => .panic

/-- The writer side of a connection: the bytes written so far and, when the
peer will stop accepting data, the number of `Write` calls that still succeed. -/
structure Writer where
  written : List Nat
  quota : Option Nat
  deriving DecidableEq, Repr

/-- The call `w.Write(b)`. -/
def Writer.write (w : Writer) (b : List Nat) : Option Writer :=
  match w.quota with
  | none => some { w with written := w.written ++ b }
  | some 0 => none
  | some (q + 1) => some { written := w.written ++ b, quota := some q }

/-- The function `serve`, run on the request bytes the reader will deliver
before end of input.  It returns only with an error. -/
def serve : List Nat → Writer → State → Outcome (Err × Writer)
  | [], w, s => .ret (.eof, w) s
  | c :: input, w, s =>
    let n := c
    match serveFill n 0 (List.replicate (n * 8) 0) s with
    | .ret (.ok b) s1 =>
      match w.write b with
      | some w1 => serve input w1 { s1 with ids := wrapU64 (s1.ids + n) }
      | none => .ret (.writeFailed, w) s1
    | .ret (.error e) s1 => .ret (e, w) s1
    | .blocked => .blocked
    | .exit => .exit
    | .panic => .panic

/-! ## The 9p files -/

/-- How a file handler without access to the generator ends. -/
inductive Run (α : Type) where
  | done (a : α)
  | panic
  | outOfFuel
  deriving DecidableEq, Repr

/-- A `DataFile`: its records and the `Length` of the embedded `srv.File`. -/
structure DataFile where
  uuids : List (List Nat)
  Length : Nat
  deriving DecidableEq, Repr

/-- The loop of `DataFile.Read` over the window `b` of the buffer, at record
`n` and intra-record offset `off`; the result is the window after the copies. -/
def DataFile.readLoop (uuids : List (List Nat)) : Nat → Nat → Nat → List Nat → Run (List Nat)
  | _, _, _, [] => .done []
  | 0, _, _, _ :: _ => .outOfFuel
  | fuel + 1, n, off, c :: cs =>
    let b := c :: cs
    let m := if idsz - off > b.length then b.length else idsz - off
    match uuids[n]? with
    | none => .panic
    | some u =>
      let blk := if u.length ≠ 0 then u else List.replicate idsz 0
      if off + m > blk.length then .panic
      else
        let b1 := copyInto b ((blk.drop off).take m)
        match DataFile.readLoop uuids fuel (n + 1) 0 (b1.drop m) with
        | .done rest => .done (b1.take m ++ rest)
        | .panic => .panic
        | .outOfFuel => .outOfFuel

/-- The method `DataFile.Read`: the byte count and the buffer afterwards. -/
def DataFile.Read (d : DataFile) (buf : List Nat) (offset : Nat) : Run (Nat × List Nat) :=
  if offset > d.Length then .done (0, buf)
  else
    let count := if wrapU64 (offset + buf.length) > d.Length then d.Length - offset
                 else buf.length
    match DataFile.readLoop d.uuids count (offset / idsz) (offset % idsz) (buf.take count) with
    | .done b => .done (count, b ++ buf.drop count)
    | .panic => .panic
    | .outOfFuel => .outOfFuel

/-- The string `fmt.Sprintf("%d,%d\n", rqs, ids)`. -/
def statsContent (rqs ids : Nat) : List Nat := decimal rqs ++ [44] ++ decimal ids ++ [10]

/-- The method `StatsFile.Read` on a buffer of length `buf.length` and capacity
`cap`: the byte count and the visible part of the buffer afterwards. -/
def StatsFile.Read (rqs ids : Nat) (buf : List Nat) (cap : Nat) (offset : Nat) :
    Run (Nat × List Nat) :=
  let b := statsContent rqs ids
  let n := b.length
  if offset ≥ n then .done (0, buf)
  else
    let b := (b.take n).drop offset
    let n := n - offset
    let n := if buf.length < n then buf.length else n
    if offset + n > cap ∨ offset > b.length then .panic
    else
      let arr := buf ++ List.replicate (cap - buf.length) 0
      let dst := (arr.take (offset + n)).drop offset
      let arr1 := arr.take offset ++ copyInto dst (b.drop offset) ++ arr.drop (offset + n)
      .done (n, arr1.take buf.length)

/-- The fields of `time.Now()` that `CtlFile.Write` prints. -/
structure WallTime where
  year : Nat
  month : Nat
  day : Nat
  hour : Nat
  minute : Nat
  second : Nat
  deriving DecidableEq, Repr

/-- The string `fmt.Sprintf("%d%d%d%d%d%d", now.Year(), ..., now.Second())`. -/
def dataFileName (now : WallTime) : List Nat :=
  decimal now.year ++ decimal now.month ++ decimal now.day ++
    decimal now.hour ++ decimal now.minute ++ decimal now.second

/-- A session directory: the readable content of its `ctl` file (the field
`datafile` of `CtlFile`) and its data files by name, latest first. -/
structure Session where
  datafile : List Nat
  files : List (List Nat × DataFile)
  deriving DecidableEq, Repr

/-- The ASCII bytes of `ctl`. -/
def ctlName : List Nat := [99, 116, 108]

/-- The call `df.Add(c.File.Parent, dfname, ...)` of the 9p library: it fails when
the directory already has an entry of that name. -/
def Session.add (d : Session) (name : List Nat) (df : DataFile) : Option Session :=
  if name = ctlName ∨ name ∈ d.files.map Prod.fst then none
  else some { d with files := (name, df) :: d.files }

/-- Replace the data file at the head of the directory (the one `Write` is filling). -/
def Session.setHead (d : Session) (df : DataFile) : Session :=
  match d.files with
  | [] => d
  | (name, _) :: rest => { d with files := (name, df) :: rest }

/-- The value of a string of ASCII decimal digits; `none` on any other byte or
on the empty string. -/
def digitsValue : List Nat → Option Nat
  | [] => none
  | cs => cs.foldl (fun acc c =>
      match acc with
      | some v => if 48 ≤ c ∧ c ≤ 57 then some (v * 10 + (c - 48)) else none
      | none => none) (some 0)

/-- The function `strconv.Atoi` for a 64-bit `int`: an optional sign, at least
one decimal digit, and a value inside the `int` range. -/
def atoi (data : List Nat) : Option Int :=
  let signed : Option Int :=
    match data with
    | 43 :: cs => (digitsValue cs).map Int.ofNat
    | 45 :: cs => (digitsValue cs).map (fun v => -Int.ofNat v)
    | cs => (digitsValue cs).map Int.ofNat
  match signed with
  | some v => if -2 ^ 63 ≤ v ∧ v < 2 ^ 63 then some v else none
  | none => none

/-- The record `fmt.Sprintf("%02x%02x%02x%02x%02x%02x%02x%02x\n", byte(id>>56), ..., byte(id))`
cut to `idsz` bytes. -/
def uuidRecord (id : Int) : List Nat :=
  copyInto (List.replicate idsz 0) ((((bigEndian id).map hex2).flatten ++ [10]).take idsz)

/-- The loop `for i := uint(0); i < uint(ids); i++` of `CtlFile.Write`, entered
at index `i` with `k` iterations to go; `uuids` is `df.uuids`.  The result is
the error of the failing `nextId` call, if any, and `df.uuids` at that point. -/
def writeFill : Nat → Nat → List (List Nat) → State → Outcome (Option Err × List (List Nat))
  | 0, _, uuids, s => .ret (none, uuids) s
  | k + 1, i, uuids, s =>
    match nextId s with
    | .ret (.ok id) s1 => writeFill k (i + 1) (uuids.set i (uuidRecord id)) s1
    | .ret (.error e) s1 => .ret (some e, uuids) s1
    | .blocked => .blocked
    | .exit => .exit
    | .panic => .panic

/-- The method `CtlFile.Write` on the session directory `d` holding the control
file, with `now` the reading of `time.Now()`: the returned pair (count, error)
and the directory afterwards.  A failed `strconv.Atoi` reaches `log.Fatalf`,
which ends the process. -/
def CtlFile.Write (d : Session) (now : WallTime) (data : List Nat) (s : State) :
    Outcome (Except Err Int × Session) :=
  match atoi data with
  | none => .exit
  | some ids =>
    if ids ≤ 0 then .ret (.ok data.length, d) s
    else
      let dfname := dataFileName now
      match d.add dfname { uuids := [], Length := 0 } with
      | none => .ret (.error .cannotCreateDataFile, d) s
      | some d1 =>
        match writeFill ids.toNat 0 (List.replicate ids.toNat []) s with
        | .ret (none, uuids) s1 =>
          .ret (.ok data.length,
            { d1.setHead { uuids := uuids, Length := (wrap64 (ids * idsz) % 2 ^ 64).toNat }
              with datafile := copyInto (List.replicate dfname.length 0) dfname }) s1
        | .ret (some e, uuids) s1 =>
          .ret (.error e, d1.setHead { uuids := uuids, Length := 0 }) s1
        | .blocked => .blocked
        | .exit => .exit
        | .panic => .panic

/-- The method `CtlFile.Read`. -/
def CtlFile.Read (d : Session) (buf : List Nat) (offset : Nat) : Nat × List Nat :=
  let n := d.datafile.length
  if offset > 0 then (0, buf)
  else
    let n := if buf.length < n then buf.length else n
    (n, copyInto buf d.datafile)

/-! ## The HTTP handler (`main.go` lines 316-325) -/

/-- The body `404 page not found\n` that `http.NotFound` writes. -/
def notFoundText : List Nat :=
  [52, 48, 52, 32, 112, 97, 103, 101, 32, 110, 111, 116, 32, 102, 111, 117, 110, 100, 10]

/-- An HTTP response: the status code and the body writer. -/
structure Response where
  status : Nat
  w : Writer
  deriving DecidableEq, Repr

/-- The call `http.NotFound(w, r)`: status 404 and the not-found body. -/
def httpNotFound (w : Writer) : Writer :=
  match w.write notFoundText with
  | some w1 => w1
  | none => w

/-- What the `net/http` server does to the request body when a `Write` of the
handler grows the response from `before` to `after` bytes while `unread` body
bytes are still unread: the number of those bytes it takes away from the
handler.  It depends on the framing and connection headers of the request and
on the library, so the handler below takes it as a parameter. -/
abbrev BodyDiscard : Type := Nat → Nat → Nat → Nat

/-- The behaviour of `net/http` on an HTTP/1.1 request that carries a
`Content-Length` and leaves the connection open: the response is buffered up to
2048 bytes; the `Write` that takes it beyond 2048 bytes makes the server send
the response header, and before doing so it consumes and closes an unread body
of less than 256 KB, so that later reads of `r.Body` fail. -/
def netHttpDiscard : BodyDiscard := fun before after unread =>
  if before ≤ 2048 ∧ 2048 < after ∧ unread < 262144 then unread else 0

/-- The function `serve` as the handler calls it, `serve(r.Body, w)`: the loop
of lines 348-387 on a reader and a writer that are the two ends of one HTTP
exchange.  `skip` counts the body bytes at the head of the list that the
server has taken away; after each `Write` the server takes away `d before
after unread` more.  The read error at the end of what the body delivers is
written `eof`, whether it is `io.EOF` or the error of a closed body. -/
def serveBody (d : BodyDiscard) : List Nat → Nat → Writer → State → Outcome (Err × Writer)
  | [], _, w, s => .ret (.eof, w) s
  | _ :: input, skip + 1, w, s => serveBody d input skip w s
  | c :: input, 0, w, s =>
    let n := c
    match serveFill n 0 (List.replicate (n * 8) 0) s with
    | .ret (.ok b) s1 =>
      match w.write b with
      | some w1 =>
        serveBody d input (d w.written.length w1.written.length input.length) w1
          { s1 with ids := wrapU64 (s1.ids + n) }
      | none => .ret (.writeFailed, w) s1
    | .ret (.error e) s1 => .ret (e, w) s1
    | .blocked => .blocked
    | .exit => .exit
    | .panic => .panic

/-- The handler registered for `/g` in `acceptAndServeHTTP`: after the method
test, with or without the not-found reply, it runs `serve(r.Body, w)` and
drops the error `serve` returns.  `d` is what the server does to the unread
body as the response grows. -/
def acceptAndServeHTTP_handler (d : BodyDiscard) (method : String) (body : List Nat)
    (w : Writer) (s : State) : Outcome Response :=
  let notPost := decide (method ≠ "POST")
  let w0 := if notPost then httpNotFound w else w
  let skip := if notPost then d w.written.length w0.written.length body.length else 0
  match serveBody d body skip w0 s with
  | .ret (_, w1) s1 => .ret { status := if notPost then 404 else 200, w := w1 } s1
  | .blocked => .blocked
  | .exit => .exit
  | .panic => .panic

/-! ## The clone file (`main.go` lines 159-197) -/

/-- The 9p tree served in mode `9p`: the field `clones` of the `Clone` file and
the session directories under the root, latest first. -/
structure Tree where
  clones : Int
  dirs : List (List Nat × Session)
  deriving DecidableEq, Repr

/-- The tree that `serve9p` builds: no session yet, `clones = 0`. -/
def freshTree : Tree := { clones := 0, dirs := [] }

/-- The ASCII bytes of `clone`. -/
def cloneName : List Nat := [99, 108, 111, 110, 101]

/-- The ASCII bytes of `stats`. -/
def statsName : List Nat := [115, 116, 97, 116, 115]

/-- The function `strconv.Itoa`. -/
def itoa (i : Int) : List Nat := if i < 0 then 45 :: decimal i.natAbs else decimal i.toNat

/-- The call `f.Add(root, name, ...)` of the 9p library: it fails when the root
already has an entry of that name. -/
def Tree.add (t : Tree) (name : List Nat) (d : Session) : Option Tree :=
  if name = cloneName ∨ name = statsName ∨ name ∈ t.dirs.map Prod.fst then none
  else some { t with dirs := (name, d) :: t.dirs }

/-- The call `f.Remove()` of the 9p library on the directory of that name. -/
def Tree.remove (t : Tree) (name : List Nat) : Tree :=
  { t with dirs := t.dirs.filter (fun e => decide (e.1 ≠ name)) }

/-- The method `Clone.Read`: the returned pair (count, error), the buffer and
the tree afterwards.  The new directory is empty, so adding `ctl` to it cannot
fail; the session it holds starts with an empty control content. -/
def Clone.Read (t : Tree) (buf : List Nat) (offset : Nat) :
    (Except Err Nat × List Nat) × Tree :=
  if offset > 0 then ((.ok 0, buf), t)
  else
    let t1 : Tree := { t with clones := wrap64 (t.clones + 1) }
    let name := itoa t1.clones
    match t1.add name { datafile := [], files := [] } with
    | none => ((.error .cannotCreateDir, buf), t1)
    | some t2 =>
      if buf.length < name.length then ((.error .notEnoughBuffer, buf), t2.remove name)
      else ((.ok name.length, copyInto buf name), t2)

/-- Successive reads of the clone file, each given as (buffer, offset): the
results in order and the tree afterwards. -/
def Clone.reads : List (List Nat × Nat) → Tree → List (Except Err Nat × List Nat) × Tree
  | [], t => ([], t)
  | (buf, offset) :: rest, t =>
    ((Clone.Read t buf offset).1 :: (Clone.reads rest (Clone.Read t buf offset).2).1,
      (Clone.reads rest (Clone.Read t buf offset).2).2)

/-- The names handed out by a run of reads: the bytes returned by the reads
that returned a positive count. -/
def returnedNames : List (Except Err Nat × List Nat) → List (List Nat)
  | [] => []
  | (.ok n, buf) :: rs => if n > 0 then buf.take n :: returnedNames rs else returnedNames rs
  | (.error _, _) :: rs => returnedNames rs

/-- The number of reads at offset 0 in a run. -/
def readsAtZero : List (List Nat × Nat) → Nat
  | [] => 0
  | (_, offset) :: rest => (if offset = 0 then 1 else 0) + readsAtZero rest

/-! ## Calendar time -/

/-- The number of days from 1970-01-01 to the given date of the proleptic
Gregorian calendar (month 1..12, day 1..31). -/
def daysFromCivil (y m d : Int) : Int :=
  let y1 := if m ≤ 2 then y - 1 else y
  let era := y1 / 400
  let yoe := y1 - era * 400
  let mp := (m + 9) % 12
  let doy := (153 * mp + 2) / 5 + d - 1
  let doe := yoe * 365 + yoe / 4 - yoe / 100 + doy
  era * 146097 + doe - 719468

/-- The milliseconds since the Unix epoch of a GMT date and time of day. -/
def unixMillis (y m d hh mm ss ms : Int) : Int :=
  (((daysFromCivil y m d * 24 + hh) * 60 + mm) * 60 + ss) * 1000 + ms

/-! ## Bitwise operations as arithmetic -/

theorem lor_zero_right (a : Int) : Int.lor a 0 = a := by
  cases a with
  | ofNat m => show ((m ||| 0 : Nat) : Int) = _; simp
  | negSucc m => show Int.negSucc (Nat.ldiff m 0) = _; simp [Nat.ldiff]

theorem land_zero_right (a : Int) : Int.land a 0 = 0 := by
  cases a with
  | ofNat m => show ((m &&& 0 : Nat) : Int) = _; simp
  | negSucc m => show ((Nat.ldiff 0 m : Nat) : Int) = _; simp [Nat.ldiff]

theorem int_bit_eq (x : Int) : x = Int.bit (decide (x % 2 = 1)) (x / 2) := by
  rw [Int.bit_val]
  by_cases h : x % 2 = 1
  · simp [h]; omega
  · simp [h]; omega

/-- OR-ing a value below `2^k` onto a multiple of `2^k` adds it. -/
theorem lor_shift_add (k : Nat) : ∀ (a b : Int), 0 ≤ b → b < 2 ^ k →
    Int.lor (a * 2 ^ k) b = a * 2 ^ k + b := by
  induction k with
  | zero =>
    intro a b h0 h1
    have : b = 0 := by simp at h1; omega
    subst this
    simp [lor_zero_right]
  | succ k ih =>
    intro a b h0 h1
    have ha : a * 2 ^ (k + 1) = Int.bit false (a * 2 ^ k) := by
      rw [Int.bit_val]; simp; ring
    have hb := int_bit_eq b
    rw [ha]
    nth_rewrite 1 [hb]
    rw [Int.lor_bit, ih a (b / 2) (by omega) (by rw [pow_succ] at h1; omega)]
    simp only [Bool.false_or, Int.bit_val]
    by_cases h : b % 2 = 1
    · simp [h]; omega
    · simp [h]; omega

/-- AND-ing with `2^k - 1` is the remainder modulo `2^k`, for negative values too. -/
theorem land_mask (k : Nat) : ∀ (x : Int), Int.land x (2 ^ k - 1) = x % 2 ^ k := by
  induction k with
  | zero => intro x; simp [land_zero_right]
  | succ k ih =>
    intro x
    have hm : (2 : Int) ^ (k + 1) - 1 = Int.bit true (2 ^ k - 1) := by
      rw [Int.bit_val]; simp; ring
    have hx := int_bit_eq x
    rw [hm]
    nth_rewrite 1 [hx]
    rw [Int.land_bit, ih (x / 2)]
    simp only [Bool.and_true, Int.bit_val]
    have h2 : x % 2 ^ (k + 1) = 2 * ((x / 2) % 2 ^ k) + x % 2 := by
      have hm0 : (0 : Int) < 2 ^ k := by positivity
      have h1 := Int.emod_add_ediv (x / 2) (2 ^ k)
      have h3 := Int.emod_nonneg (x / 2) (ne_of_gt hm0)
      have h4 := Int.emod_lt_of_pos (x / 2) hm0
      have h5 : (2 : Int) ^ (k + 1) = 2 * 2 ^ k := by ring
      rw [h5]
      have h6 : 2 * 2 ^ k * (x / 2 / 2 ^ k) = 2 * (2 ^ k * (x / 2 / 2 ^ k)) := by ring
      have h7 : (0 : Int) < 2 * 2 ^ k := by omega
      exact ((Int.ediv_emod_unique (q := x / 2 / 2 ^ k) h7).2
        ⟨by rw [h6]; omega, by omega, by omega⟩).2
    rw [h2]
    by_cases h : x % 2 = 1
    · simp [h]
    · simp [h]; omega

theorem sequenceMask_eq : sequenceMask = 4095 := by decide
theorem maxWorkerId_eq : maxWorkerId = 31 := by decide
theorem maxDatacenterId_eq : maxDatacenterId = 31 := by decide

theorem land_sequenceMask (x : Int) : Int.land x sequenceMask = x % 4096 := by
  rw [sequenceMask_eq]; exact land_mask 12 x

theorem land_31 (x : Int) : Int.land x 31 = x % 32 := land_mask 5 x

/-- The shifted timestamp is a multiple of `2^22` inside the `int64` range. -/
theorem shl64_22 (y : Int) :
    ∃ a : Int, shl64 y 22 = a * 2 ^ 22 ∧ -2 ^ 41 ≤ a ∧ a < 2 ^ 41 := by
  refine ⟨shl64 y 22 / 2 ^ 22, ?_, ?_, ?_⟩ <;>
    simp only [shl64, wrap64] <;> norm_num <;> omega

/-- With the two ids in `0..31` and the sequence in `0..4095`, the OR of the four
fields is their sum. -/
theorem packId_eq_add (ts did wid seq : Int) (hd : 0 ≤ did ∧ did ≤ 31)
    (hw : 0 ≤ wid ∧ wid ≤ 31) (hs : 0 ≤ seq ∧ seq ≤ 4095) :
    packId ts did wid seq =
      shl64 (wrap64 (ts - twepoch)) 22 + did * 131072 + wid * 4096 + seq := by
  obtain ⟨a, ha, _, _⟩ := shl64_22 (wrap64 (ts - twepoch))
  have h17 : shl64 did 17 = did * 2 ^ 17 := by
    simp only [shl64, wrap64]; norm_num; omega
  have h12 : shl64 wid 12 = wid * 2 ^ 12 := by
    simp only [shl64, wrap64]; norm_num; omega
  have e1 : Int.lor (a * 2 ^ 22) (did * 2 ^ 17) = a * 2 ^ 22 + did * 2 ^ 17 :=
    lor_shift_add 22 a _ (by omega) (by norm_num; omega)
  have e2 : a * 2 ^ 22 + did * 2 ^ 17 = (a * 32 + did) * 2 ^ 17 := by ring
  have e3 : Int.lor ((a * 32 + did) * 2 ^ 17) (wid * 2 ^ 12)
      = (a * 32 + did) * 2 ^ 17 + wid * 2 ^ 12 :=
    lor_shift_add 17 _ _ (by omega) (by norm_num; omega)
  have e4 : (a * 32 + did) * 2 ^ 17 + wid * 2 ^ 12 = ((a * 32 + did) * 32 + wid) * 2 ^ 12 := by
    ring
  have e5 : Int.lor (((a * 32 + did) * 32 + wid) * 2 ^ 12) seq
      = ((a * 32 + did) * 32 + wid) * 2 ^ 12 + seq :=
    lor_shift_add 12 _ _ (by omega) (by norm_num; omega)
  show Int.lor (Int.lor (Int.lor (shl64 (wrap64 (ts - twepoch)) 22) (shl64 did 17))
    (shl64 wid 12)) seq = _
  rw [h17, h12, ha, e1, e2, e3, e4, e5]
  ring

/-! ## Claims about `nextId` -/

/-- C1, evaluated on the code: from the initial state with worker 5, datacenter 3,
the clock readings T, T, T-1, T (T = twepoch+10) make the four calls return
id(T,0), id(T,1), the rewind error, and id(T,1) again, so two successful calls
return the same identifier 42356737. -/
theorem nextId_repeats_id_after_rewind :
    (nextIds 4 (initState 5 3 [twepoch + 10, twepoch + 10, twepoch + 9, twepoch + 10])).map
        (fun p => p.1)
      = some [.ok 42356736, .ok 42356737, .error (.clockRewind (twepoch + 10)), .ok 42356737] := by
  decide

/-- C2, evaluated on the code: with the clock readings T, T, T, T-1, T the third
call returns id(T,2) = 42356738 and the fifth call, which starts after the third
returned, returns the smaller value id(T,1) = 42356737. -/
theorem nextId_decreases_after_rewind :
    (nextIds 5 (initState 5 3
        [twepoch + 10, twepoch + 10, twepoch + 10, twepoch + 9, twepoch + 10])).map
        (fun p => okValues p.1)
      = some [42356736, 42356737, 42356738, 42356737] := by
  decide

/-- The packed identifier within the field ranges: its sign, its value and the
four fields read back by shift and mask. -/
theorem packId_fields (ts did wid seq : Int) (hd : 0 ≤ did ∧ did ≤ 31)
    (hw : 0 ≤ wid ∧ wid ≤ 31) (hs : 0 ≤ seq ∧ seq ≤ 4095)
    (ht : 0 ≤ ts - twepoch ∧ ts - twepoch < 2 ^ 41) :
    0 ≤ packId ts did wid seq ∧ packId ts did wid seq < 2 ^ 63 ∧
    packId ts did wid seq
      = (ts - twepoch) * 2 ^ 22 + did * 2 ^ 17 + wid * 2 ^ 12 + seq ∧
    shr64 (packId ts did wid seq) 22 = ts - twepoch ∧
    Int.land (shr64 (packId ts did wid seq) 17) 31 = did ∧
    Int.land (shr64 (packId ts did wid seq) 12) 31 = wid ∧
    Int.land (packId ts did wid seq) 4095 = seq := by
  have h := packId_eq_add ts did wid seq hd hw hs
  have hsh : shl64 (wrap64 (ts - twepoch)) 22 = (ts - twepoch) * 4194304 := by
    simp only [shl64, wrap64]; norm_num; omega
  rw [hsh] at h
  have hl := land_mask 12 (packId ts did wid seq)
  have hl17 := land_31 (shr64 (packId ts did wid seq) 17)
  have hl12 := land_31 (shr64 (packId ts did wid seq) 12)
  norm_num at hl
  rw [hl, hl17, hl12]
  simp only [shr64]
  norm_num
  refine ⟨?_, ?_, ?_, ?_, ?_, ?_, ?_⟩ <;> omega

/-- C3: for ids in 0..31, a sequence in 0..4095 and a timestamp at most 41 bits
above the epoch, the packed identifier is non-negative (below 2^63) and its
fields read back as `ts - twepoch`, `did`, `wid` and `seq`. -/
theorem packId_roundtrip (ts did wid seq : Int) (hd : 0 ≤ did ∧ did ≤ 31)
    (hw : 0 ≤ wid ∧ wid ≤ 31) (hs : 0 ≤ seq ∧ seq ≤ 4095)
    (ht : 0 ≤ ts - twepoch ∧ ts - twepoch < 2 ^ 41) :
    0 ≤ packId ts did wid seq ∧ packId ts did wid seq < 2 ^ 63 ∧
    packId ts did wid seq
      = (ts - twepoch) * 2 ^ 22 + did * 2 ^ 17 + wid * 2 ^ 12 + seq ∧
    shr64 (packId ts did wid seq) 22 = ts - twepoch ∧
    Int.land (shr64 (packId ts did wid seq) 17) 31 = did ∧
    Int.land (shr64 (packId ts did wid seq) 12) 31 = wid ∧
    Int.land (packId ts did wid seq) 4095 = seq :=
  packId_fields ts did wid seq hd hw hs ht

/-- C3 at worker 5, datacenter 3, sequence 7, one second after the epoch. -/
theorem packId_roundtrip_witness :
    0 ≤ packId (twepoch + 1000) 3 5 7 ∧ packId (twepoch + 1000) 3 5 7 < 2 ^ 63 ∧
    packId (twepoch + 1000) 3 5 7
      = (twepoch + 1000 - twepoch) * 2 ^ 22 + 3 * 2 ^ 17 + 5 * 2 ^ 12 + 7 ∧
    shr64 (packId (twepoch + 1000) 3 5 7) 22 = twepoch + 1000 - twepoch ∧
    Int.land (shr64 (packId (twepoch + 1000) 3 5 7) 17) 31 = 3 ∧
    Int.land (shr64 (packId (twepoch + 1000) 3 5 7) 12) 31 = 5 ∧
    Int.land (packId (twepoch + 1000) 3 5 7) 4095 = 7 :=
  packId_roundtrip (twepoch + 1000) 3 5 7 (by decide) (by decide) (by decide) (by decide)

/-- C4: when the reading at the start of a call is below `lts`, the call returns
the rewind error carrying `lts` and no identifier; `lts` and the ids are as
before, the sequence is reset to 0 and one reading is consumed. -/
theorem nextId_clock_rewind (s : State) (ts : Int) (rest : List Int)
    (hc : s.clock = ts :: rest) (h : ts < s.lts) :
    nextId s = .ret (.error (.clockRewind s.lts)) { s with seq := 0, clock := rest } ∧
    ({ s with seq := 0, clock := rest } : State).lts = s.lts := by
  have hne : ¬ s.lts = ts := by omega
  simp [nextId, hc, hne, nextIdFinish, h]

/-- C4 on a generator that issued an id at T = twepoch+10 and then reads T-1. -/
theorem nextId_clock_rewind_witness :
    nextId { wid := 5, did := 3, lts := twepoch + 10, seq := 6, rqs := 0, ids := 0,
             clock := [twepoch + 9, twepoch + 12] }
      = .ret (.error (.clockRewind (twepoch + 10)))
          { wid := 5, did := 3, lts := twepoch + 10, seq := 0, rqs := 0, ids := 0,
            clock := [twepoch + 12] } ∧
    twepoch + 10 = twepoch + 10 :=
  nextId_clock_rewind
    { wid := 5, did := 3, lts := twepoch + 10, seq := 6, rqs := 0, ids := 0,
      clock := [twepoch + 9, twepoch + 12] } (twepoch + 9) [twepoch + 12] rfl (by decide)

/-! ## Steps of the generator -/

theorem spinWait_spec (lts : Int) : ∀ (clock : List Int) (ts ts1 : Int) (clock1 : List Int),
    spinWait lts ts clock = some (ts1, clock1) →
    lts < ts1 ∧ ts1 ∈ ts :: clock ∧ ∀ t ∈ clock1, t ∈ clock := by
  intro clock
  induction clock with
  | nil =>
    intro ts ts1 clock1 h
    by_cases hle : ts ≤ lts
    · simp [spinWait, hle] at h
    · simp [spinWait, hle] at h
      obtain ⟨rfl, rfl⟩ := h
      exact ⟨by omega, by simp, by simp⟩
  | cons t rest ih =>
    intro ts ts1 clock1 h
    by_cases hle : ts ≤ lts
    · simp only [spinWait, hle, if_true] at h
      obtain ⟨h1, h2, h3⟩ := ih t ts1 clock1 h
      exact ⟨h1, List.mem_cons_of_mem _ h2, fun x hx => List.mem_cons_of_mem _ (h3 x hx)⟩
    · simp [spinWait, hle] at h
      obtain ⟨rfl, rfl⟩ := h
      exact ⟨by omega, by simp, fun x hx => hx⟩

/-- What a successful call does to the state: the ids and counters stay, the
identifier packs the new `lts` and `seq`, and either the millisecond is the
same and the sequence went up by one without wrapping, or the millisecond
advanced and the sequence is 0. -/
theorem nextId_ok_step (s s1 : State) (v : Int) (h : nextId s = .ret (.ok v) s1) :
    s1.wid = s.wid ∧ s1.did = s.did ∧ s1.rqs = s.rqs ∧ s1.ids = s.ids ∧
    v = packId s1.lts s.did s.wid s1.seq ∧
    s1.lts ∈ s.clock ∧ (∀ t ∈ s1.clock, t ∈ s.clock) ∧
    ((s1.lts = s.lts ∧ s1.seq = (s.seq + 1) % 4096 ∧ s1.seq ≠ 0) ∨
      (s.lts < s1.lts ∧ s1.seq = 0)) := by
  unfold nextId at h
  cases hc : s.clock with
  | nil => simp [hc] at h
  | cons ts clock =>
    simp only [hc] at h
    have hland : Int.land (wrap64 (s.seq + 1)) sequenceMask = (s.seq + 1) % 4096 := by
      rw [land_sequenceMask]; simp only [wrap64]; omega
    by_cases heq : s.lts = ts
    · simp only [heq, if_true, hland] at h
      by_cases hz : (s.seq + 1) % 4096 = 0
      · simp only [hz, if_true] at h
        cases hsp : spinWait ts ts clock with
        | none => simp [hsp] at h
        | some p =>
          obtain ⟨ts1, clock1⟩ := p
          simp only [hsp] at h
          obtain ⟨h1, h2, h3⟩ := spinWait_spec ts clock ts ts1 clock1 hsp
          have hlt : ¬ ts1 < s.lts := by omega
          simp only [nextIdFinish, hlt, if_false, Outcome.ret.injEq, Except.ok.injEq] at h
          obtain ⟨rfl, rfl⟩ := h
          refine ⟨rfl, rfl, rfl, rfl, rfl, h2, fun t ht => List.mem_cons_of_mem _ (h3 t ht), ?_⟩
          right; exact ⟨by show s.lts < ts1; omega, rfl⟩
      · simp only [hz, if_false] at h
        have hlt : ¬ ts < s.lts := by omega
        simp only [nextIdFinish, hlt, if_false, Outcome.ret.injEq, Except.ok.injEq] at h
        obtain ⟨rfl, rfl⟩ := h
        refine ⟨rfl, rfl, rfl, rfl, rfl, by simp, fun t ht => List.mem_cons_of_mem _ ht, ?_⟩
        left; exact ⟨heq.symm, rfl, hz⟩
    · simp only [heq, if_false] at h
      by_cases hlt : ts < s.lts
      · simp [nextIdFinish, hlt] at h
      · simp only [nextIdFinish, hlt, if_false, Outcome.ret.injEq, Except.ok.injEq] at h
        obtain ⟨rfl, rfl⟩ := h
        refine ⟨rfl, rfl, rfl, rfl, rfl, by simp, fun t ht => List.mem_cons_of_mem _ ht, ?_⟩
        right; exact ⟨by show s.lts < ts; omega, rfl⟩


theorem nextIds_succ_ok (n : Nat) (s : State) (rs : List (Except Err Int)) (s2 : State)
    (h : nextIds (n + 1) s = some (rs, s2)) :
    ∃ r s1 rs1, nextId s = .ret r s1 ∧ nextIds n s1 = some (rs1, s2) ∧ rs = r :: rs1 := by
  simp only [nextIds] at h
  cases hn : nextId s with
  | ret r s1 =>
    simp only [hn] at h
    cases hm : nextIds n s1 with
    | none => simp [hm] at h
    | some p =>
      obtain ⟨rs1, s3⟩ := p
      simp only [hm, Option.some.injEq, Prod.mk.injEq] at h
      obtain ⟨rfl, rfl⟩ := h
      exact ⟨r, s1, rs1, rfl, hm, rfl⟩
  | blocked => simp [hn] at h
  | exit => simp [hn] at h
  | panic => simp [hn] at h

/-- The timestamp field of an identifier issued within the 41-bit range. -/
theorem timestampOf_packId (ts did wid seq : Int) (hd : 0 ≤ did ∧ did ≤ 31)
    (hw : 0 ≤ wid ∧ wid ≤ 31) (hs : 0 ≤ seq ∧ seq ≤ 4095) (ht : InRange ts) :
    timestampOf (packId ts did wid seq) = ts - twepoch :=
  (packId_fields ts did wid seq hd hw hs ht).2.2.2.1

theorem sequenceOf_packId (ts did wid seq : Int) (hd : 0 ≤ did ∧ did ≤ 31)
    (hw : 0 ≤ wid ∧ wid ≤ 31) (hs : 0 ≤ seq ∧ seq ≤ 4095) :
    sequenceOf (packId ts did wid seq) = seq := by
  have h := packId_eq_add ts did wid seq hd hw hs
  obtain ⟨a, ha, _, _⟩ := shl64_22 (wrap64 (ts - twepoch))
  rw [ha] at h
  unfold sequenceOf
  rw [land_sequenceMask, h]
  norm_num
  omega

/-- Calls that all succeed with the timestamp field of the current `lts` leave
`lts` alone and raise the sequence by one each, never past 4095. -/
theorem nextIds_same_timestamp : ∀ (n : Nat) (s s1 : State) (rs : List (Except Err Int)),
    (0 ≤ s.did ∧ s.did ≤ 31) → (0 ≤ s.wid ∧ s.wid ≤ 31) → (0 ≤ s.seq ∧ s.seq ≤ 4095) →
    (∀ t ∈ s.clock, InRange t) →
    nextIds n s = some (rs, s1) →
    (∀ r ∈ rs, ∃ v, r = .ok v ∧ timestampOf v = s.lts - twepoch) →
    s1.lts = s.lts ∧ s1.seq = s.seq + n ∧ s1.seq ≤ 4095 ∧ s1.wid = s.wid ∧ s1.did = s.did ∧
      (∀ t ∈ s1.clock, t ∈ s.clock) := by
  intro n
  induction n with
  | zero =>
    intro s s1 rs hd hw hs hc h hok
    simp only [nextIds, Option.some.injEq, Prod.mk.injEq] at h
    obtain ⟨_, rfl⟩ := h
    exact ⟨rfl, by simp, hs.2, rfl, rfl, fun t ht => ht⟩
  | succ n ih =>
    intro s s2 rs hd hw hs hc h hok
    obtain ⟨r, s1, rs1, h1, h2, rfl⟩ := nextIds_succ_ok n s rs s2 h
    obtain ⟨v, rfl, hv⟩ := hok r (by simp)
    obtain ⟨e1, e2, _, _, e5, e6, e7, e8⟩ := nextId_ok_step s s1 v h1
    have hs1 : 0 ≤ s1.seq ∧ s1.seq ≤ 4095 := by
      rcases e8 with ⟨_, e, _⟩ | ⟨_, e⟩ <;> omega
    have hts : timestampOf v = s1.lts - twepoch := by
      rw [e5]; exact timestampOf_packId _ _ _ _ hd hw hs1 (hc _ e6)
    have hlts : s1.lts = s.lts := by omega
    have hseq : s1.seq = s.seq + 1 := by
      rcases e8 with ⟨_, e, e0⟩ | ⟨e, _⟩ <;> omega
    obtain ⟨i1, i2, i3, i4, i5, i6⟩ := ih s1 s2 rs1 (e2 ▸ hd) (e1 ▸ hw) hs1
      (fun t ht => hc t (e7 t ht)) h2
      (fun r hr => by rw [hlts]; exact hok r (List.mem_cons_of_mem _ hr))
    refine ⟨by omega, ?_, i3, by omega, by omega, fun t ht => e7 t (i6 t ht)⟩
    rw [i2, hseq]; push_cast; ring

/-- C5: when 4096 consecutive calls each succeed with timestamp field `T`, an
identifier returned by the next call has a timestamp field above `T` and the
sequence field 0 (ids in 0..31, clock readings within the 41-bit range). -/
theorem nextId_after_4096_same_ms (s s1 s2 : State) (rs : List (Except Err Int)) (T id : Int)
    (hd : 0 ≤ s.did ∧ s.did ≤ 31) (hw : 0 ≤ s.wid ∧ s.wid ≤ 31)
    (hc : ∀ t ∈ s.clock, InRange t)
    (hrun : nextIds 4096 s = some (rs, s1))
    (hok : ∀ r ∈ rs, ∃ v, r = .ok v ∧ timestampOf v = T)
    (hnext : nextId s1 = .ret (.ok id) s2) :
    T < timestampOf id ∧ sequenceOf id = 0 := by
  obtain ⟨r, sa, rs1, h1, h2, rfl⟩ := nextIds_succ_ok 4095 s rs s1 hrun
  obtain ⟨v, rfl, hv⟩ := hok r (by simp)
  obtain ⟨e1, e2, _, _, e5, e6, e7, e8⟩ := nextId_ok_step s sa v h1
  have hsa : 0 ≤ sa.seq ∧ sa.seq ≤ 4095 := by
    rcases e8 with ⟨_, e, _⟩ | ⟨_, e⟩ <;> omega
  have hts : timestampOf v = sa.lts - twepoch := by
    rw [e5]; exact timestampOf_packId _ _ _ _ hd hw hsa (hc _ e6)
  obtain ⟨i1, i2, i3, i4, i5, i6⟩ := nextIds_same_timestamp 4095 sa s1 rs1 (e2 ▸ hd) (e1 ▸ hw) hsa
    (fun t ht => hc t (e7 t ht)) h2
    (fun r hr => by rw [← hts, hv]; exact hok r (List.mem_cons_of_mem _ hr))
  obtain ⟨f1, f2, _, _, f5, f6, f7, f8⟩ := nextId_ok_step s1 s2 id hnext
  have hs1 : s1.seq = 4095 := by push_cast at i2; omega
  have hd1 : 0 ≤ s1.did ∧ s1.did ≤ 31 := by rw [i5, e2]; exact hd
  have hw1 : 0 ≤ s1.wid ∧ s1.wid ≤ 31 := by rw [i4, e1]; exact hw
  rcases f8 with ⟨_, g, g0⟩ | ⟨g, g0⟩
  · omega
  · have hr2 : InRange s2.lts := hc _ (e7 _ (i6 _ f6))
    rw [f5, g0, timestampOf_packId _ _ _ _ hd1 hw1 (by omega) hr2,
      sequenceOf_packId _ _ _ _ hd1 hw1 (by omega)]
    exact ⟨by omega, rfl⟩


/-- A call that reads the millisecond of `lts` with room in the sequence. -/
theorem nextId_same_ms (s : State) (c : List Int) (hc : s.clock = s.lts :: c)
    (h0 : 0 ≤ s.seq) (h1 : s.seq + 1 ≤ 4095) :
    nextId s = .ret (.ok (packId s.lts s.did s.wid (s.seq + 1)))
      { s with seq := s.seq + 1, clock := c } := by
  have hland : Int.land (wrap64 (s.seq + 1)) sequenceMask = s.seq + 1 := by
    rw [land_sequenceMask]; simp only [wrap64]; omega
  have hz : ¬ s.seq + 1 = 0 := by omega
  simp [nextId, hc, hland, hz, nextIdFinish]

/-- A call that reads a millisecond after `lts`. -/
theorem nextId_fresh_ms (s : State) (T : Int) (c : List Int) (hc : s.clock = T :: c)
    (h : s.lts < T) :
    nextId s = .ret (.ok (packId T s.did s.wid 0)) { s with lts := T, seq := 0, clock := c } := by
  have hne : ¬ s.lts = T := by omega
  have hlt : ¬ T < s.lts := by omega
  simp [nextId, hc, hne, nextIdFinish, hlt]

/-- Calls that keep reading the millisecond of `lts` while the sequence has room. -/
theorem nextIds_same_ms : ∀ (n : Nat) (s : State) (rest : List Int),
    s.clock = List.replicate n s.lts ++ rest → 0 ≤ s.seq → s.seq + n ≤ 4095 →
    nextIds n s = some ((List.range n).map
        (fun (i : Nat) => Except.ok (packId s.lts s.did s.wid (s.seq + 1 + (i : Int)))),
      { s with seq := s.seq + n, clock := rest }) := by
  intro n
  induction n with
  | zero =>
    intro s rest hc h0 h1
    obtain ⟨wid, did, lts, seq, rqs, ids, clock⟩ := s
    simp at hc
    simp [nextIds, hc]
  | succ n ih =>
    intro s rest hc h0 h1
    have hc1 : s.clock = s.lts :: (List.replicate n s.lts ++ rest) := by
      rw [hc, List.replicate_succ]; rfl
    have hstep := nextId_same_ms s _ hc1 h0 (by omega)
    have hrec := ih { s with seq := s.seq + 1, clock := List.replicate n s.lts ++ rest } rest
      rfl (by show 0 ≤ s.seq + 1; omega) (by show s.seq + 1 + (n : Int) ≤ 4095; push_cast at h1; omega)
    simp only [nextIds, hstep, hrec, List.range_succ_eq_map, List.map_cons, List.map_map]
    simp only [Option.some.injEq, Prod.mk.injEq, List.cons.injEq, State.mk.injEq]
    refine ⟨⟨by simp, ?_⟩, trivial, trivial, trivial, by push_cast; ring, trivial, trivial,
      trivial⟩
    apply List.map_congr_left
    intro i _
    simp only [Function.comp, Nat.succ_eq_add_one]
    congr 2
    push_cast
    ring

/-- The first `n+1` calls of a millisecond `T` after `lts`. -/
theorem nextIds_fresh_ms (n : Nat) (s : State) (T : Int) (rest : List Int)
    (hc : s.clock = List.replicate (n + 1) T ++ rest) (h : s.lts < T) (hn : n ≤ 4095) :
    nextIds (n + 1) s = some (Except.ok (packId T s.did s.wid 0) ::
        (List.range n).map (fun (i : Nat) => Except.ok (packId T s.did s.wid (0 + 1 + (i : Int)))),
      { s with lts := T, seq := n, clock := rest }) := by
  have hc1 : s.clock = T :: (List.replicate n T ++ rest) := by
    rw [hc, List.replicate_succ]; rfl
  have hstep := nextId_fresh_ms s T _ hc1 h
  have hrec := nextIds_same_ms n { s with lts := T, seq := 0, clock := List.replicate n T ++ rest }
    rest rfl (by show (0 : Int) ≤ 0; omega) (by show (0 : Int) + (n : Int) ≤ 4095; omega)
  simp only [nextIds, hstep, hrec]
  simp

/-- C5 on worker 5, datacenter 3: 4096 calls read T = twepoch+10 and return
timestamp field 10; the next call reads T+1 and returns 46551040, whose
timestamp field is 11 and whose sequence field is 0. -/
theorem nextId_after_4096_same_ms_witness :
    (10 : Int) < timestampOf 46551040 ∧ sequenceOf 46551040 = 0 :=
  nextId_after_4096_same_ms
    (initState 5 3 (List.replicate (4095 + 1) (twepoch + 10) ++ [twepoch + 11]))
    { wid := 5, did := 3, lts := twepoch + 10, seq := 4095, rqs := 0, ids := 0,
      clock := [twepoch + 11] }
    { wid := 5, did := 3, lts := twepoch + 11, seq := 0, rqs := 0, ids := 0, clock := [] }
    (Except.ok (packId (twepoch + 10) 3 5 0) ::
      (List.range 4095).map (fun (i : Nat) => Except.ok (packId (twepoch + 10) 3 5 (0 + 1 + (i : Int)))))
    10 46551040 (by decide) (by decide)
    (by
      intro t ht
      have : t = twepoch + 10 ∨ t = twepoch + 11 := by
        simp only [initState, List.mem_append, List.mem_replicate, List.mem_singleton] at ht
        rcases ht with ⟨_, h⟩ | h
        · exact Or.inl h
        · exact Or.inr h
      rcases this with rfl | rfl <;> exact ⟨by decide, by decide⟩)
    (nextIds_fresh_ms 4095 _ (twepoch + 10) [twepoch + 11] rfl (by decide) (by decide))
    (by
      intro r hr
      simp only [List.mem_cons, List.mem_map, List.mem_range] at hr
      rcases hr with rfl | ⟨i, hi, rfl⟩
      · exact ⟨_, rfl, by decide⟩
      · exact ⟨_, rfl, by
          rw [timestampOf_packId _ _ _ _ (by decide) (by decide)
            ⟨by omega, by omega⟩ ⟨by decide, by decide⟩]
          simp⟩)
    (by decide)


/-! ## The stream protocol -/

theorem lor_isInt64 (a b : Int) (ha : IsInt64 a) (hb : IsInt64 b) : IsInt64 (Int.lor a b) := by
  unfold IsInt64 at *
  cases a with
  | ofNat m =>
    cases b with
    | ofNat n =>
      simp only [Int.ofNat_eq_coe] at ha hb
      have hm : m < 2 ^ 63 := by omega
      have hn : n < 2 ^ 63 := by omega
      have := Nat.or_lt_two_pow hm hn
      show -2 ^ 63 ≤ ((m ||| n : Nat) : Int) ∧ ((m ||| n : Nat) : Int) < 2 ^ 63
      omega
    | negSucc n =>
      simp only [Int.ofNat_eq_coe, Int.negSucc_eq] at ha hb
      have hm : m < 2 ^ 63 := by omega
      have hn : n < 2 ^ 63 := by omega
      have := Nat.bitwise_lt_two_pow (f := fun a b => a && !b) hn hm
      show -2 ^ 63 ≤ Int.negSucc (Nat.ldiff n m) ∧ Int.negSucc (Nat.ldiff n m) < 2 ^ 63
      unfold Nat.ldiff
      simp only [Int.negSucc_eq]
      omega
  | negSucc m =>
    cases b with
    | ofNat n =>
      simp only [Int.ofNat_eq_coe, Int.negSucc_eq] at ha hb
      have hm : m < 2 ^ 63 := by omega
      have hn : n < 2 ^ 63 := by omega
      have := Nat.bitwise_lt_two_pow (f := fun a b => a && !b) hm hn
      show -2 ^ 63 ≤ Int.negSucc (Nat.ldiff m n) ∧ Int.negSucc (Nat.ldiff m n) < 2 ^ 63
      unfold Nat.ldiff
      simp only [Int.negSucc_eq]
      omega
    | negSucc n =>
      simp only [Int.negSucc_eq] at ha hb
      have hm : m < 2 ^ 63 := by omega
      have := @Nat.and_le_left m n
      show -2 ^ 63 ≤ Int.negSucc (m &&& n) ∧ Int.negSucc (m &&& n) < 2 ^ 63
      simp only [Int.negSucc_eq]
      omega

theorem wrap64_isInt64 (x : Int) : IsInt64 (wrap64 x) := by
  unfold IsInt64 wrap64; omega

/-- Every identifier `nextId` returns is an `int64`, whatever the state. -/
theorem nextId_ok_isInt64 (s s1 : State) (v : Int) (h : nextId s = .ret (.ok v) s1) :
    IsInt64 v := by
  obtain ⟨_, _, _, _, e5, _, _, e8⟩ := nextId_ok_step s s1 v h
  have hs : IsInt64 s1.seq := by
    unfold IsInt64
    rcases e8 with ⟨_, e, _⟩ | ⟨_, e⟩ <;> omega
  rw [e5]
  exact lor_isInt64 _ _ (lor_isInt64 _ _ (lor_isInt64 _ _ (wrap64_isInt64 _) (wrap64_isInt64 _))
    (wrap64_isInt64 _)) hs

theorem byteOf_cast (x : Int) : ((byteOf x : Nat) : Int) = x % 256 := by
  unfold byteOf; omega

theorem byteOf_lt (x : Int) : byteOf x < 256 := by
  unfold byteOf; omega

theorem decodeBE_eight (b0 b1 b2 b3 b4 b5 b6 b7 : Nat) :
    decodeBE [b0, b1, b2, b3, b4, b5, b6, b7]
      = ((((((b0 * 256 + b1) * 256 + b2) * 256 + b3) * 256 + b4) * 256 + b5) * 256 + b6) * 256
        + b7 := by
  simp [decodeBE]

/-- Reading the eight bytes of an `int64` back as a big-endian `int64`. -/
theorem decodeId_bigEndian (id : Int) (h : IsInt64 id) : decodeId (bigEndian id) = id := by
  unfold IsInt64 at h
  have e56 : shr64 id 56 = id / 72057594037927936 := by unfold shr64; norm_num
  have e48 : shr64 id 48 = id / 281474976710656 := by unfold shr64; norm_num
  have e40 : shr64 id 40 = id / 1099511627776 := by unfold shr64; norm_num
  have e32 : shr64 id 32 = id / 4294967296 := by unfold shr64; norm_num
  have e24 : shr64 id 24 = id / 16777216 := by unfold shr64; norm_num
  have e16 : shr64 id 16 = id / 65536 := by unfold shr64; norm_num
  have e8 : shr64 id 8 = id / 256 := by unfold shr64; norm_num
  unfold decodeId bigEndian
  rw [decodeBE_eight]
  push_cast
  simp only [byteOf_cast, e56, e48, e40, e32, e24, e16, e8]
  unfold wrap64
  norm_num at h ⊢
  omega

theorem bigEndian_length (id : Int) : (bigEndian id).length = 8 := rfl

/-- Writing an identifier over eight bytes of the buffer. -/
theorem putId_append (pre post : List Nat) (c0 c1 c2 c3 c4 c5 c6 c7 : Nat) (off : Nat) (id : Int)
    (h : pre.length = off) :
    putId (pre ++ c0 :: c1 :: c2 :: c3 :: c4 :: c5 :: c6 :: c7 :: post) off id
      = pre ++ bigEndian id ++ post := by
  subst h
  simp [putId, bigEndian, List.set_append]

theorem replicate_succ_mul_eight (k : Nat) :
    List.replicate ((k + 1) * 8) 0
      = (0 : Nat) :: 0 :: 0 :: 0 :: 0 :: 0 :: 0 :: 0 :: List.replicate (k * 8) 0 := by
  have : (k + 1) * 8 = k * 8 + 8 := by ring
  rw [this]
  rfl

theorem okValues_all_ok : ∀ (rs : List (Except Err Int)), (∀ r ∈ rs, ∃ v, r = .ok v) →
    (okValues rs).length = rs.length := by
  intro rs
  induction rs with
  | nil => intro _; rfl
  | cons r rs ih =>
    intro h
    obtain ⟨v, rfl⟩ := h r (by simp)
    simp [okValues, ih (fun r hr => h r (List.mem_cons_of_mem _ hr))]

theorem nextIds_length : ∀ (n : Nat) (s s1 : State) (rs : List (Except Err Int)),
    nextIds n s = some (rs, s1) → rs.length = n := by
  intro n
  induction n with
  | zero =>
    intro s s1 rs h
    simp only [nextIds, Option.some.injEq, Prod.mk.injEq] at h
    rw [← h.1]; rfl
  | succ n ih =>
    intro s s2 rs h
    obtain ⟨r, s1, rs1, _, h2, rfl⟩ := nextIds_succ_ok n s rs s2 h
    simp [ih s1 s2 rs1 h2]

theorem nextIds_isInt64 : ∀ (n : Nat) (s s1 : State) (rs : List (Except Err Int)),
    nextIds n s = some (rs, s1) → ∀ v ∈ okValues rs, IsInt64 v := by
  intro n
  induction n with
  | zero =>
    intro s s1 rs h
    simp only [nextIds, Option.some.injEq, Prod.mk.injEq] at h
    rw [← h.1]; simp [okValues]
  | succ n ih =>
    intro s s2 rs h
    obtain ⟨r, s1, rs1, h1, h2, rfl⟩ := nextIds_succ_ok n s rs s2 h
    cases r with
    | ok v =>
      intro x hx
      simp only [okValues, List.mem_cons] at hx
      rcases hx with rfl | hx
      · exact nextId_ok_isInt64 s s1 _ h1
      · exact ih s1 s2 rs1 h2 x hx
    | error e =>
      intro x hx
      exact ih s1 s2 rs1 h2 x hx

/-- The inner loop of `serve` stores the identifiers of the successive calls,
eight big-endian bytes each, after the part of the buffer already filled. -/
theorem serveFill_spec : ∀ (k : Nat) (s s1 : State) (rs : List (Except Err Int))
    (pre : List Nat) (i : Nat),
    nextIds k s = some (rs, s1) → (∀ r ∈ rs, ∃ v, r = .ok v) → pre.length = i * 8 →
    serveFill k i (pre ++ List.replicate (k * 8) 0) s
      = .ret (.ok (pre ++ ((okValues rs).map bigEndian).flatten)) s1 := by
  intro k
  induction k with
  | zero =>
    intro s s1 rs pre i h _ _
    simp only [nextIds, Option.some.injEq, Prod.mk.injEq] at h
    obtain ⟨rfl, rfl⟩ := h
    simp [serveFill, okValues]
  | succ k ih =>
    intro s s2 rs pre i h hok hpre
    obtain ⟨r, s1, rs1, h1, h2, rfl⟩ := nextIds_succ_ok k s rs s2 h
    obtain ⟨v, rfl⟩ := hok r (by simp)
    have hrec := ih s1 s2 rs1 (pre ++ bigEndian v) (i + 1) h2
      (fun r hr => hok r (List.mem_cons_of_mem _ hr))
      (by rw [List.length_append, hpre, bigEndian_length]; ring)
    rw [replicate_succ_mul_eight]
    simp only [serveFill, h1]
    rw [putId_append pre _ 0 0 0 0 0 0 0 0 (i * 8) v hpre, hrec]
    simp [okValues]

/-- The `i`-th eight-byte chunk of a run of big-endian identifiers. -/
theorem chunk_flatten : ∀ (vs : List Int) (i : Nat) (v : Int), vs[i]? = some v →
    (((vs.map bigEndian).flatten).drop (8 * i)).take 8 = bigEndian v := by
  intro vs
  induction vs with
  | nil => intro i v h; simp at h
  | cons x xs ih =>
    intro i v h
    cases i with
    | zero =>
      simp only [List.getElem?_cons_zero, Option.some.injEq] at h
      subst h
      simp only [List.map_cons, List.flatten_cons, Nat.mul_zero, List.drop_zero]
      exact List.take_left' (bigEndian_length x)
    | succ j =>
      simp only [List.getElem?_cons_succ] at h
      have h8 : 8 * (j + 1) = (bigEndian x).length + 8 * j := by
        rw [bigEndian_length]; ring
      simp only [List.map_cons, List.flatten_cons]
      rw [h8, List.drop_append]
      exact ih j v h

theorem flatten_bigEndian_length (vs : List Int) :
    ((vs.map bigEndian).flatten).length = vs.length * 8 := by
  induction vs with
  | nil => rfl
  | cons x xs ih =>
    simp only [List.map_cons, List.flatten_cons, List.length_append, ih, bigEndian_length,
      List.length_cons]
    ring

/-- The identifier as a sum, for fields within their ranges. -/
theorem packId_value (ts did wid seq : Int) (hd : 0 ≤ did ∧ did ≤ 31)
    (hw : 0 ≤ wid ∧ wid ≤ 31) (hs : 0 ≤ seq ∧ seq ≤ 4095) (ht : InRange ts) :
    packId ts did wid seq = (ts - twepoch) * 4194304 + did * 131072 + wid * 4096 + seq := by
  have h := (packId_fields ts did wid seq hd hw hs ht).2.2.1
  rw [h]; norm_num

/-- Every identifier issued by calls that all succeed is above the identifier
packed from the state they start in. -/
theorem nextIds_gt_start : ∀ (n : Nat) (s s1 : State) (rs : List (Except Err Int)),
    (0 ≤ s.did ∧ s.did ≤ 31) → (0 ≤ s.wid ∧ s.wid ≤ 31) → (0 ≤ s.seq ∧ s.seq ≤ 4095) →
    InRange s.lts → (∀ t ∈ s.clock, InRange t) →
    nextIds n s = some (rs, s1) → (∀ r ∈ rs, ∃ v, r = .ok v) →
    ∀ v ∈ okValues rs, packId s.lts s.did s.wid s.seq < v := by
  intro n
  induction n with
  | zero =>
    intro s s1 rs _ _ _ _ _ h _
    simp only [nextIds, Option.some.injEq, Prod.mk.injEq] at h
    rw [← h.1]; simp [okValues]
  | succ n ih =>
    intro s s2 rs hd hw hs hl hc h hok
    obtain ⟨r, s1, rs1, h1, h2, rfl⟩ := nextIds_succ_ok n s rs s2 h
    obtain ⟨v, rfl⟩ := hok r (by simp)
    obtain ⟨e1, e2, _, _, e5, e6, e7, e8⟩ := nextId_ok_step s s1 v h1
    have hs1 : 0 ≤ s1.seq ∧ s1.seq ≤ 4095 := by
      rcases e8 with ⟨_, e, _⟩ | ⟨_, e⟩ <;> omega
    have hl1 : InRange s1.lts := hc _ e6
    have hu := packId_value s.lts s.did s.wid s.seq hd hw hs hl
    have hv := packId_value s1.lts s.did s.wid s1.seq hd hw hs1 hl1
    have hlt : packId s.lts s.did s.wid s.seq < v := by
      rw [e5, hu, hv]
      rcases e8 with ⟨g1, g2, g3⟩ | ⟨g1, g2⟩ <;> omega
    have hrec := ih s1 s2 rs1 (e2 ▸ hd) (e1 ▸ hw) hs1 hl1 (fun t ht => hc t (e7 t ht)) h2
      (fun r hr => hok r (List.mem_cons_of_mem _ hr))
    rw [e1, e2, ← e5] at hrec
    intro x hx
    simp only [okValues, List.mem_cons] at hx
    rcases hx with rfl | hx
    · exact hlt
    · exact lt_trans hlt (hrec x hx)

/-- Calls that all succeed return strictly increasing identifiers (ids in
0..31, clock readings within the 41-bit range). -/
theorem nextIds_increasing : ∀ (n : Nat) (s s1 : State) (rs : List (Except Err Int)),
    (0 ≤ s.did ∧ s.did ≤ 31) → (0 ≤ s.wid ∧ s.wid ≤ 31) → (∀ t ∈ s.clock, InRange t) →
    nextIds n s = some (rs, s1) → (∀ r ∈ rs, ∃ v, r = .ok v) →
    (okValues rs).Pairwise (fun a b => a < b) := by
  intro n
  induction n with
  | zero =>
    intro s s1 rs _ _ _ h _
    simp only [nextIds, Option.some.injEq, Prod.mk.injEq] at h
    rw [← h.1]; simp [okValues]
  | succ n ih =>
    intro s s2 rs hd hw hc h hok
    obtain ⟨r, s1, rs1, h1, h2, rfl⟩ := nextIds_succ_ok n s rs s2 h
    obtain ⟨v, rfl⟩ := hok r (by simp)
    obtain ⟨e1, e2, _, _, e5, e6, e7, e8⟩ := nextId_ok_step s s1 v h1
    have hs1 : 0 ≤ s1.seq ∧ s1.seq ≤ 4095 := by
      rcases e8 with ⟨_, e, _⟩ | ⟨_, e⟩ <;> omega
    have hok1 : ∀ r ∈ rs1, ∃ v, r = Except.ok v := fun r hr => hok r (List.mem_cons_of_mem _ hr)
    have hc1 : ∀ t ∈ s1.clock, InRange t := fun t ht => hc t (e7 t ht)
    have hgt := nextIds_gt_start n s1 s2 rs1 (e2 ▸ hd) (e1 ▸ hw) hs1 (hc _ e6) hc1 h2 hok1
    rw [e1, e2, ← e5] at hgt
    simp only [okValues, List.pairwise_cons]
    exact ⟨hgt, ih s1 s2 rs1 (e2 ▸ hd) (e1 ▸ hw) hc1 h2 hok1⟩

/-- C6: when the `n` calls of a request succeed, `serve` writes one buffer of
`n*8` bytes whose `i`-th chunk is the big-endian encoding of the `i`-th
identifier generated (and decodes back to it), adds `n` to the id counter and
goes on with the next request byte; with ids in 0..31 and clock readings in
the 41-bit range the identifiers of the batch are strictly increasing. -/
theorem serve_batch_encoding (n : Nat) (input : List Nat) (w : Writer) (s s1 : State)
    (rs : List (Except Err Int))
    (hrun : nextIds n s = some (rs, s1)) (hok : ∀ r ∈ rs, ∃ v, r = .ok v)
    (hq : w.quota ≠ some 0) :
    ∃ (b : List Nat) (w1 : Writer),
      (okValues rs).length = n ∧ b.length = n * 8 ∧
      (∀ i v, (okValues rs)[i]? = some v →
        (b.drop (8 * i)).take 8 = bigEndian v ∧ decodeId ((b.drop (8 * i)).take 8) = v) ∧
      w.write b = some w1 ∧ w1.written = w.written ++ b ∧
      serve (n :: input) w s = serve input w1 { s1 with ids := wrapU64 (s1.ids + n) } ∧
      ((0 ≤ s.did ∧ s.did ≤ 31) → (0 ≤ s.wid ∧ s.wid ≤ 31) → (∀ t ∈ s.clock, InRange t) →
        (okValues rs).Pairwise (fun a b => a < b)) := by
  have hlen : (okValues rs).length = n := by
    rw [okValues_all_ok rs hok]; exact nextIds_length n s s1 rs hrun
  have hfill := serveFill_spec n s s1 rs [] 0 hrun hok (by simp)
  simp only [List.nil_append] at hfill
  obtain ⟨w1, hw1, hw2⟩ : ∃ w1, w.write ((okValues rs).map bigEndian).flatten = some w1 ∧
      w1.written = w.written ++ ((okValues rs).map bigEndian).flatten := by
    unfold Writer.write
    cases hq' : w.quota with
    | none => exact ⟨_, rfl, rfl⟩
    | some q =>
      cases q with
      | zero => exact absurd hq' hq
      | succ q => exact ⟨_, rfl, rfl⟩
  refine ⟨_, w1, hlen, ?_, ?_, hw1, hw2, ?_,
    fun hd hw hc => nextIds_increasing n s s1 rs hd hw hc hrun hok⟩
  · rw [flatten_bigEndian_length, hlen]
  · intro i v hv
    have hc := chunk_flatten (okValues rs) i v hv
    refine ⟨hc, ?_⟩
    rw [hc]
    exact decodeId_bigEndian v
      (nextIds_isInt64 n s s1 rs hrun v (List.getElem?_mem hv))
  · simp only [serve, hfill, hw1]

/-- C6 on the request byte 3 with worker 5, datacenter 3 and clock readings
T, T, T+1 (T = twepoch+10): 24 bytes are written, decoding to 42356736,
42356737 and 46551040. -/
theorem serve_batch_encoding_witness :
    (∃ (b : List Nat) (w1 : Writer),
      (okValues [Except.ok 42356736, Except.ok 42356737, Except.ok 46551040]).length = 3 ∧
      b.length = 3 * 8 ∧
      (∀ i v, (okValues [Except.ok 42356736, Except.ok 42356737, Except.ok 46551040])[i]? = some v →
        (b.drop (8 * i)).take 8 = bigEndian v ∧ decodeId ((b.drop (8 * i)).take 8) = v) ∧
      Writer.write { written := [], quota := none } b = some w1 ∧
      w1.written = ([] : List Nat) ++ b ∧
      serve (3 :: []) { written := [], quota := none }
          (initState 5 3 [twepoch + 10, twepoch + 10, twepoch + 11])
        = serve [] w1
            { ({ wid := 5, did := 3, lts := twepoch + 11, seq := 0, rqs := 0, ids := 0,
                 clock := [] } : State) with ids := wrapU64 (0 + 3) } ∧
      ((0 ≤ (initState 5 3 [twepoch + 10, twepoch + 10, twepoch + 11]).did ∧
          (initState 5 3 [twepoch + 10, twepoch + 10, twepoch + 11]).did ≤ 31) →
        (0 ≤ (initState 5 3 [twepoch + 10, twepoch + 10, twepoch + 11]).wid ∧
          (initState 5 3 [twepoch + 10, twepoch + 10, twepoch + 11]).wid ≤ 31) →
        (∀ t ∈ (initState 5 3 [twepoch + 10, twepoch + 10, twepoch + 11]).clock, InRange t) →
        (okValues [Except.ok 42356736, Except.ok 42356737, Except.ok 46551040]).Pairwise
          (fun a b => a < b))) ∧
    serve [3] { written := [], quota := none }
        (initState 5 3 [twepoch + 10, twepoch + 10, twepoch + 11])
      = .ret (.eof, { written := [0, 0, 0, 0, 2, 134, 80, 0, 0, 0, 0, 0, 2, 134, 80, 1,
                                   0, 0, 0, 0, 2, 198, 80, 0], quota := none })
          { wid := 5, did := 3, lts := twepoch + 11, seq := 0, rqs := 0, ids := 3, clock := [] } :=
  ⟨serve_batch_encoding 3 [] { written := [], quota := none }
      (initState 5 3 [twepoch + 10, twepoch + 10, twepoch + 11])
      { wid := 5, did := 3, lts := twepoch + 11, seq := 0, rqs := 0, ids := 0, clock := [] }
      [Except.ok 42356736, Except.ok 42356737, Except.ok 46551040]
      (by decide) (by simp) (by decide),
    by decide⟩


/-! ## The data file -/

theorem flatten_uniform_length : ∀ (uuids : List (List Nat)),
    (∀ u ∈ uuids, u.length = idsz) → uuids.flatten.length = uuids.length * idsz := by
  intro uuids
  induction uuids with
  | nil => intro _; rfl
  | cons x xs ih =>
    intro h
    simp only [List.flatten_cons, List.length_append, List.length_cons,
      h x (by simp), ih (fun u hu => h u (List.mem_cons_of_mem _ hu))]
    ring

/-- Dropping `n` whole records leaves record `n` followed by the later records. -/
theorem flatten_drop_block : ∀ (uuids : List (List Nat)) (n : Nat) (u : List Nat),
    (∀ u ∈ uuids, u.length = idsz) → uuids[n]? = some u →
    uuids.flatten.drop (n * idsz) = u ++ uuids.flatten.drop ((n + 1) * idsz) := by
  intro uuids
  induction uuids with
  | nil => intro n u _ h; simp at h
  | cons x xs ih =>
    intro n u hlen h
    have hx : x.length = idsz := hlen x (by simp)
    cases n with
    | zero =>
      simp only [List.getElem?_cons_zero, Option.some.injEq] at h
      subst h
      simp only [List.flatten_cons, Nat.zero_mul, List.drop_zero, Nat.zero_add, Nat.one_mul]
      rw [List.drop_left' hx]
    | succ j =>
      simp only [List.getElem?_cons_succ] at h
      have h1 : (j + 1) * idsz = x.length + j * idsz := by rw [hx]; ring
      have h2 : (j + 1 + 1) * idsz = x.length + (j + 1) * idsz := by rw [hx]; ring
      simp only [List.flatten_cons]
      rw [h1, h2, List.drop_append, List.drop_append]
      exact ih j u (fun u hu => hlen u (List.mem_cons_of_mem _ hu)) h

/-- The copy loop of `DataFile.Read` fills the window with the bytes of the
concatenated records from position `n*17 + off` on. -/
theorem readLoop_spec (uuids : List (List Nat)) (hrec : ∀ u ∈ uuids, u.length = idsz) :
    ∀ (fuel n off : Nat) (b : List Nat), off < idsz →
    n * idsz + off + b.length ≤ uuids.length * idsz → b.length ≤ fuel →
    DataFile.readLoop uuids fuel n off b
      = .done ((uuids.flatten.drop (n * idsz + off)).take b.length) := by
  intro fuel
  induction fuel with
  | zero =>
    intro n off b _ _ hf
    have : b = [] := List.length_eq_zero.mp (by omega)
    subst this
    simp [DataFile.readLoop]
  | succ fuel ih =>
    intro n off b hoff hfit hf
    cases b with
    | nil => simp [DataFile.readLoop]
    | cons c cs =>
      have hidsz : idsz = 17 := rfl
      have hn : n < uuids.length := by
        simp only [List.length_cons] at hfit
        rw [hidsz] at hfit hoff
        omega
      obtain ⟨u, hu⟩ : ∃ u, uuids[n]? = some u := ⟨uuids[n], List.getElem?_eq_getElem hn⟩
      have hul : u.length = idsz := hrec u (List.getElem?_mem hu)
      have hblock := flatten_drop_block uuids n u hrec hu
      have hdrop : uuids.flatten.drop (n * idsz + off)
          = u.drop off ++ uuids.flatten.drop ((n + 1) * idsz) := by
        rw [← List.drop_drop, hblock, List.drop_append_of_le_length (by omega)]
      have hX : (u.drop off).length = idsz - off := by rw [List.length_drop, hul]
      have hlenb : (c :: cs).length = cs.length + 1 := rfl
      generalize hb : c :: cs = b at hfit hf hlenb ⊢
      have hb1 : 1 ≤ b.length := by omega
      by_cases hcase : idsz - off > b.length
      · -- the window ends inside record `n`
        have hsrc : ((u.drop off).take b.length).length = b.length := by
          rw [List.length_take, hX]; omega
        have hcopy : copyInto b ((u.drop off).take b.length) = (u.drop off).take b.length := by
          unfold copyInto
          rw [hsrc, List.drop_length, List.append_nil, List.take_of_length_le (by omega)]
        have hchk : ¬ off + b.length > u.length := by omega
        have hne : u.length ≠ 0 := by omega
        subst hb
        simp only [DataFile.readLoop, hu, hcase, if_true, hne, ne_eq, not_false_eq_true, hchk,
          if_false, hcopy]
        rw [List.drop_of_length_le (by omega), hdrop, List.take_append_of_le_length (by omega)]
        simp [DataFile.readLoop]
      · -- the window runs to the end of record `n` and on into the next
        have hm : idsz - off ≤ b.length := by omega
        have hsrc : ((u.drop off).take (idsz - off)) = u.drop off :=
          List.take_of_length_le (by omega)
        have hcopy : copyInto b (u.drop off) = u.drop off ++ b.drop (idsz - off) := by
          unfold copyInto
          rw [hX, List.take_of_length_le (by omega)]
        have hchk : ¬ off + (idsz - off) > u.length := by omega
        have hne : u.length ≠ 0 := by omega
        have hdl : (b.drop (idsz - off)).length = b.length - (idsz - off) := List.length_drop _ _
        have hmul : (n + 1) * idsz = n * idsz + idsz := by ring
        have hrec1 := ih (n + 1) 0 (b.drop (idsz - off)) (by omega) (by omega) (by omega)
        rw [hdl, Nat.add_zero] at hrec1
        have htake : ((u.drop off).take b.length) = u.drop off :=
          List.take_of_length_le (by omega)
        subst hb
        simp only [DataFile.readLoop, hu, hcase, if_false, hne, ne_eq, not_false_eq_true, hchk,
          hsrc, hcopy, if_true]
        rw [List.drop_left' hX, List.take_left' hX, hrec1, hdrop, List.take_append_eq_append_take,
          htake, hX]
        simp only [Nat.add_zero]

/-- C7: on a data file of 17-byte records whose `Length` is 17 times their
number, `Read` returns without error; past the length it returns 0 and leaves
the buffer, otherwise it returns `k = min(len(buf), Length - offset)` and the
first `k` bytes of the buffer are bytes `offset .. offset+k-1` of the
concatenated records, the rest of the buffer being untouched. -/
theorem DataFile_Read_exact (d : DataFile) (buf : List Nat) (offset : Nat)
    (hrec : ∀ u ∈ d.uuids, u.length = idsz) (hlen : d.Length = d.uuids.length * idsz)
    (hfit : d.Length + buf.length < 2 ^ 64) :
    ∃ (k : Nat) (buf1 : List Nat), DataFile.Read d buf offset = .done (k, buf1) ∧
      (offset > d.Length → k = 0 ∧ buf1 = buf) ∧
      (offset ≤ d.Length →
        k = min buf.length (d.Length - offset) ∧
        buf1.take k = (d.uuids.flatten.drop offset).take k ∧
        buf1.drop k = buf.drop k ∧ buf1.length = buf.length) := by
  have hidsz : idsz = 17 := rfl
  by_cases hgt : offset > d.Length
  · exact ⟨0, buf, by simp [DataFile.Read, hgt], fun _ => ⟨rfl, rfl⟩, fun h => absurd hgt (by omega)⟩
  · have hle : offset ≤ d.Length := by omega
    have hw : wrapU64 (offset + buf.length) = offset + buf.length := by
      unfold wrapU64; exact Nat.mod_eq_of_lt (by omega)
    obtain ⟨k, hk⟩ : ∃ k, k = min buf.length (d.Length - offset) := ⟨_, rfl⟩
    have hcount : (if wrapU64 (offset + buf.length) > d.Length then d.Length - offset
        else buf.length) = k := by
      rw [hw, hk]
      by_cases h : offset + buf.length > d.Length
      · rw [if_pos h]; omega
      · rw [if_neg h]; omega
    have hkb : k ≤ buf.length := by omega
    have htl : (buf.take k).length = k := by rw [List.length_take]; omega
    have hdm : offset / idsz * idsz + offset % idsz = offset := Nat.div_add_mod' offset idsz
    have hloop := readLoop_spec d.uuids hrec k (offset / idsz) (offset % idsz) (buf.take k)
      (Nat.mod_lt _ (by decide)) (by rw [htl, hdm, ← hlen]; omega) (by omega)
    rw [htl, hdm] at hloop
    have hfl := flatten_uniform_length d.uuids hrec
    have hres : ((d.uuids.flatten.drop offset).take k).length = k := by
      rw [List.length_take, List.length_drop, hfl, ← hlen]; omega
    refine ⟨k, (d.uuids.flatten.drop offset).take k ++ buf.drop k, ?_, fun h => absurd h hgt,
      fun _ => ⟨hk, ?_, ?_, ?_⟩⟩
    · simp only [DataFile.Read, hgt, if_false, hcount, hloop]
    · exact List.take_left' hres
    · exact List.drop_left' hres
    · rw [List.length_append, hres, List.length_drop]; omega

/-- C7 on five records: ten bytes read at offset 12 are the last five bytes of
record 0 followed by the first five bytes of record 1. -/
theorem DataFile_Read_exact_witness :
    (∃ (k : Nat) (buf1 : List Nat),
      DataFile.Read
        { uuids := [List.replicate 17 1, List.replicate 17 2, List.replicate 17 3,
                    List.replicate 17 4, List.replicate 17 5], Length := 85 }
        (List.replicate 10 0) 12 = .done (k, buf1) ∧
      (12 > 85 → k = 0 ∧ buf1 = List.replicate 10 0) ∧
      (12 ≤ 85 →
        k = min (List.replicate 10 0).length (85 - 12) ∧
        buf1.take k = (([List.replicate 17 1, List.replicate 17 2, List.replicate 17 3,
                    List.replicate 17 4, List.replicate 17 5] : List (List Nat)).flatten.drop 12).take k ∧
        buf1.drop k = (List.replicate 10 0).drop k ∧
        buf1.length = (List.replicate 10 0).length)) ∧
    DataFile.Read
        { uuids := [List.replicate 17 1, List.replicate 17 2, List.replicate 17 3,
                    List.replicate 17 4, List.replicate 17 5], Length := 85 }
        (List.replicate 10 0) 12 = .done (10, [1, 1, 1, 1, 1, 2, 2, 2, 2, 2]) :=
  ⟨DataFile_Read_exact
    { uuids := [List.replicate 17 1, List.replicate 17 2, List.replicate 17 3,
                List.replicate 17 4, List.replicate 17 5], Length := 85 }
    (List.replicate 10 0) 12 (by decide) (by decide) (by decide), by decide⟩


/-! ## The stats file -/

/-- C8, evaluated on the code: with both counters 0 the content is `0,0\n`;
a read at offset 1 into eight zero bytes returns 3 but leaves the first byte
alone and stores only `0\n` at positions 1 and 2 (the expected `,0\n` is not
at the start of the buffer), and a read at offset 3 panics on `b[offset:]`. -/
theorem StatsFile_Read_nonzero_offset :
    statsContent 0 0 = [48, 44, 48, 10] ∧
    StatsFile.Read 0 0 (List.replicate 8 0) 8 1 = .done (3, [0, 48, 10, 0, 0, 0, 0, 0]) ∧
    StatsFile.Read 0 0 (List.replicate 8 0) 8 3 = .panic := by
  decide

/-! ## The control file -/

/-- C10, evaluated on the code: writing `abc` to a control file ends the
process in `log.Fatalf`; the `return -1, err` after it is never reached. -/
theorem CtlFile_Write_invalid_exits :
    atoi [97, 98, 99] = none ∧
    CtlFile.Write { datafile := [], files := [] } ⟨2026, 11, 4, 9, 5, 7⟩ [97, 98, 99]
      (initState 5 3 [twepoch + 10]) = .exit := by
  decide


theorem hexVal_hexDigit (d : Nat) (h : d < 16) : hexVal (hexDigit d) = some d := by
  unfold hexVal hexDigit
  by_cases h10 : d < 10
  · have h1 : 48 ≤ 48 + d ∧ 48 + d ≤ 57 := by omega
    simp only [h10, if_true, h1, and_self]
    congr 1; omega
  · have h1 : ¬ (48 ≤ 87 + d ∧ 87 + d ≤ 57) := by omega
    have h2 : 97 ≤ 87 + d ∧ 87 + d ≤ 102 := by omega
    simp only [h10, if_false, h1, h2, and_self, if_true]
    congr 1; omega

/-- A lowercase hexadecimal digit: `0`-`9` or `a`-`f`. -/
theorem hexDigit_lower (d : Nat) (h : d < 16) :
    (48 ≤ hexDigit d ∧ hexDigit d ≤ 57) ∨ (97 ≤ hexDigit d ∧ hexDigit d ≤ 102) := by
  unfold hexDigit
  by_cases h10 : d < 10
  · simp only [h10, if_true]; omega
  · simp only [h10, if_false]; omega

theorem parseHexFrom_hex2 (acc b : Nat) (rest : List Nat) (h : b < 256) :
    parseHexFrom acc (hex2 b ++ rest) = parseHexFrom (acc * 256 + b) rest := by
  have h1 : b / 16 < 16 := by omega
  have h2 : b % 16 < 16 := by omega
  simp only [hex2, List.cons_append, List.nil_append, parseHexFrom, hexVal_hexDigit _ h1,
    hexVal_hexDigit _ h2]
  congr 1
  omega

/-- The record of an identifier: sixteen hexadecimal digits and a newline. -/
theorem uuidRecord_eq (id : Int) :
    uuidRecord id = ((bigEndian id).map hex2).flatten ++ [10] := by
  simp [uuidRecord, bigEndian, hex2, copyInto, idsz]

theorem uuidRecord_length (id : Int) : (uuidRecord id).length = idsz := by
  rw [uuidRecord_eq]; simp [bigEndian, hex2, idsz]

/-- The shape of a record, and what its digits parse to. -/
theorem uuidRecord_spec (id : Int) (h : IsInt64 id) :
    (uuidRecord id).length = 17 ∧ (uuidRecord id).drop 16 = [10] ∧
    (uuidRecord id).take 16 = ((bigEndian id).map hex2).flatten ∧
    (∀ c ∈ (uuidRecord id).take 16, (48 ≤ c ∧ c ≤ 57) ∨ (97 ≤ c ∧ c ≤ 102)) ∧
    (parseHex ((uuidRecord id).take 16)).map (fun u => wrap64 (u : Int)) = some id := by
  have hl : (((bigEndian id).map hex2).flatten).length = 16 := by simp [bigEndian, hex2]
  have ht : (uuidRecord id).take 16 = ((bigEndian id).map hex2).flatten := by
    rw [uuidRecord_eq]; exact List.take_left' hl
  refine ⟨uuidRecord_length id, ?_, ht, ?_, ?_⟩
  · rw [uuidRecord_eq]; exact List.drop_left' hl
  · rw [ht]
    intro c hc
    simp only [bigEndian, List.map_cons, List.map_nil, List.flatten_cons, List.flatten_nil, hex2,
      List.cons_append, List.nil_append, List.append_nil, List.mem_cons, List.mem_singleton,
      List.not_mem_nil, or_false] at hc
    have hb := fun x => byteOf_lt x
    rcases hc with rfl | rfl | rfl | rfl | rfl | rfl | rfl | rfl | rfl | rfl | rfl | rfl | rfl |
      rfl | rfl | rfl <;> apply hexDigit_lower <;> (first | exact Nat.mod_lt _ (by decide) |
        exact Nat.div_lt_of_lt_mul (hb _))
  · rw [ht]
    have hd := decodeId_bigEndian id h
    unfold decodeId at hd
    have hp : parseHex (((bigEndian id).map hex2).flatten) = some (decodeBE (bigEndian id)) := by
      simp only [bigEndian, List.map_cons, List.map_nil, List.flatten_cons, List.flatten_nil,
        parseHex]
      rw [parseHexFrom_hex2 _ _ _ (byteOf_lt _), parseHexFrom_hex2 _ _ _ (byteOf_lt _),
        parseHexFrom_hex2 _ _ _ (byteOf_lt _), parseHexFrom_hex2 _ _ _ (byteOf_lt _),
        parseHexFrom_hex2 _ _ _ (byteOf_lt _), parseHexFrom_hex2 _ _ _ (byteOf_lt _),
        parseHexFrom_hex2 _ _ _ (byteOf_lt _), parseHexFrom_hex2 _ _ _ (byteOf_lt _),
        decodeBE_eight]
      simp only [parseHexFrom, Nat.zero_mul, Nat.zero_add]
    rw [hp]
    show some (wrap64 ((decodeBE (bigEndian id) : Nat) : Int)) = some id
    rw [hd]

/-- The loop of `CtlFile.Write` stores the records of the successive calls in
order after the records already stored. -/
theorem writeFill_spec : ∀ (k : Nat) (s s1 : State) (rs : List (Except Err Int))
    (pre : List (List Nat)) (i : Nat),
    nextIds k s = some (rs, s1) → (∀ r ∈ rs, ∃ v, r = .ok v) → pre.length = i →
    writeFill k i (pre ++ List.replicate k []) s
      = .ret (none, pre ++ (okValues rs).map uuidRecord) s1 := by
  intro k
  induction k with
  | zero =>
    intro s s1 rs pre i h _ _
    simp only [nextIds, Option.some.injEq, Prod.mk.injEq] at h
    obtain ⟨rfl, rfl⟩ := h
    simp [writeFill, okValues]
  | succ k ih =>
    intro s s2 rs pre i h hok hpre
    obtain ⟨r, s1, rs1, h1, h2, rfl⟩ := nextIds_succ_ok k s rs s2 h
    obtain ⟨v, rfl⟩ := hok r (by simp)
    have hrec := ih s1 s2 rs1 (pre ++ [uuidRecord v]) (i + 1) h2
      (fun r hr => hok r (List.mem_cons_of_mem _ hr)) (by simp [hpre])
    have hset : (pre ++ List.replicate (k + 1) ([] : List Nat)).set i (uuidRecord v)
        = (pre ++ [uuidRecord v]) ++ List.replicate k [] := by
      subst hpre
      simp [List.set_append, List.replicate_succ]
    simp only [writeFill, h1, hset, hrec]
    simp [okValues]

theorem wrap64_of_isInt64 (x : Int) (h : IsInt64 x) : wrap64 x = x := by
  unfold IsInt64 at h
  unfold wrap64
  rw [Int.emod_eq_of_lt (by omega) (by omega)]
  omega

/-- The assignment `df.Length = uint64(ids * idsz)` when the product fits `int`. -/
theorem length_field (count : Int) (hpos : 0 < count) (hsmall : count * idsz < 2 ^ 63) :
    (wrap64 (count * (idsz : Int)) % 2 ^ 64).toNat = count.toNat * 17 := by
  have h17 : ((idsz : Nat) : Int) = 17 := rfl
  rw [h17] at hsmall ⊢
  rw [wrap64_of_isInt64 _ ⟨by omega, hsmall⟩, Int.emod_eq_of_lt (by omega) (by omega)]
  have hc : count = ((count.toNat : Nat) : Int) := (Int.toNat_of_nonneg (by omega)).symm
  rw [hc]
  exact_mod_cast rfl

/-- C9: a payload that parses as `count > 0`, with the data file created and
all `count` calls succeeding, makes `Write` return `len(payload)`; the new
data file heads the directory with the `count` records in generation order and
`Length = count*17`, its name becomes the control file's content, and every
record is 16 lowercase hexadecimal digits (the two digits of each of the eight
big-endian bytes) and a newline, the digits parsing back to the identifier.
The count is one whose `count*17` does not overflow `int`. -/
theorem CtlFile_Write_materialises (d d1 : Session) (now : WallTime) (data : List Nat)
    (s s1 : State) (count : Int) (rs : List (Except Err Int))
    (hparse : atoi data = some count) (hpos : 0 < count) (hsmall : count * idsz < 2 ^ 63)
    (hadd : d.add (dataFileName now) { uuids := [], Length := 0 } = some d1)
    (hrun : nextIds count.toNat s = some (rs, s1)) (hok : ∀ r ∈ rs, ∃ v, r = .ok v) :
    CtlFile.Write d now data s
      = .ret (.ok data.length,
          { datafile := dataFileName now,
            files := (dataFileName now,
              { uuids := (okValues rs).map uuidRecord, Length := count.toNat * 17 }) :: d.files })
          s1 ∧
    ((okValues rs).map uuidRecord).length = count.toNat ∧
    (∀ v ∈ okValues rs,
      (uuidRecord v).length = 17 ∧ (uuidRecord v).drop 16 = [10] ∧
      (uuidRecord v).take 16 = ((bigEndian v).map hex2).flatten ∧
      (∀ c ∈ (uuidRecord v).take 16, (48 ≤ c ∧ c ≤ 57) ∨ (97 ≤ c ∧ c ≤ 102)) ∧
      (parseHex ((uuidRecord v).take 16)).map (fun u => wrap64 (u : Int)) = some v) := by
  have hlen : (okValues rs).length = count.toNat := by
    rw [okValues_all_ok rs hok]; exact nextIds_length _ s s1 rs hrun
  refine ⟨?_, by rw [List.length_map, hlen],
    fun v hv => uuidRecord_spec v (nextIds_isInt64 _ s s1 rs hrun v hv)⟩
  have hfill := writeFill_spec count.toNat s s1 rs [] 0 hrun hok rfl
  simp only [List.nil_append] at hfill
  have hd1 : d1 = { d with files := (dataFileName now, { uuids := [], Length := 0 }) :: d.files } := by
    unfold Session.add at hadd
    split at hadd
    · exact absurd hadd (by simp)
    · exact (Option.some.inj hadd).symm
  have hnp : ¬ count ≤ 0 := by omega
  have hL : (wrap64 (count * (idsz : Int)) % 2 ^ 64).toNat = count.toNat * 17 :=
    length_field count hpos hsmall
  have hcopy : copyInto (List.replicate (dataFileName now).length 0) (dataFileName now)
      = dataFileName now := by
    unfold copyInto
    rw [List.length_replicate, List.take_length, List.drop_of_length_le (by simp),
      List.append_nil]
  simp only [CtlFile.Write, hparse, hnp, if_false, hadd, hfill, hL, hcopy]
  rw [hd1]
  rfl

/-- C9 on the payload `2` with worker 5, datacenter 3 and clock readings
T, T, T+1 (T = twepoch+10): the data file `2026114957` holds the records
`0000000002865000\n` and `0000000002865001\n` and has length 34. -/
theorem CtlFile_Write_materialises_witness :
    (CtlFile.Write { datafile := [], files := [] } ⟨2026, 11, 4, 9, 5, 7⟩ [50]
        (initState 5 3 [twepoch + 10, twepoch + 10, twepoch + 11])
      = .ret (.ok ([50] : List Nat).length,
          { datafile := dataFileName ⟨2026, 11, 4, 9, 5, 7⟩,
            files := (dataFileName ⟨2026, 11, 4, 9, 5, 7⟩,
              { uuids := (okValues [Except.ok 42356736, Except.ok 42356737]).map uuidRecord,
                Length := (2 : Int).toNat * 17 }) :: [] })
          { wid := 5, did := 3, lts := twepoch + 10, seq := 1, rqs := 0, ids := 0,
            clock := [twepoch + 11] } ∧
      ((okValues [Except.ok 42356736, Except.ok 42356737]).map uuidRecord).length
        = (2 : Int).toNat ∧
      (∀ v ∈ okValues [Except.ok 42356736, Except.ok 42356737],
        (uuidRecord v).length = 17 ∧ (uuidRecord v).drop 16 = [10] ∧
        (uuidRecord v).take 16 = ((bigEndian v).map hex2).flatten ∧
        (∀ c ∈ (uuidRecord v).take 16, (48 ≤ c ∧ c ≤ 57) ∨ (97 ≤ c ∧ c ≤ 102)) ∧
        (parseHex ((uuidRecord v).take 16)).map (fun u => wrap64 (u : Int)) = some v)) ∧
    dataFileName ⟨2026, 11, 4, 9, 5, 7⟩ = [50, 48, 50, 54, 49, 49, 52, 57, 53, 55] ∧
    (okValues [Except.ok 42356736, Except.ok 42356737]).map uuidRecord
      = [[48, 48, 48, 48, 48, 48, 48, 48, 48, 50, 56, 54, 53, 48, 48, 48, 10],
         [48, 48, 48, 48, 48, 48, 48, 48, 48, 50, 56, 54, 53, 48, 48, 49, 10]] :=
  ⟨CtlFile_Write_materialises { datafile := [], files := [] }
      { datafile := [],
        files := [(dataFileName ⟨2026, 11, 4, 9, 5, 7⟩, { uuids := [], Length := 0 })] }
      ⟨2026, 11, 4, 9, 5, 7⟩ [50]
      (initState 5 3 [twepoch + 10, twepoch + 10, twepoch + 11])
      { wid := 5, did := 3, lts := twepoch + 10, seq := 1, rqs := 0, ids := 0,
        clock := [twepoch + 11] }
      2 [Except.ok 42356736, Except.ok 42356737]
      (by decide) (by decide) (by decide) (by decide) (by decide) (by simp),
    by decide, by decide⟩


/-! ## Counters and the HTTP handler -/

/-- What any returning call of `nextId` does to the state: the ids and the
counters stay, the sequence ends in 0..4095, `lts` does not decrease, and the
call either returns the identifier packed from the new `lts` and `seq`, or
fails with the rewind error leaving `lts` and resetting the sequence. -/
theorem nextId_ret_step (s s1 : State) (r : Except Err Int) (h : nextId s = .ret r s1) :
    s1.wid = s.wid ∧ s1.did = s.did ∧ s1.rqs = s.rqs ∧ s1.ids = s.ids ∧
    0 ≤ s1.seq ∧ s1.seq ≤ 4095 ∧ s.lts ≤ s1.lts ∧
    ((r = .ok (packId s1.lts s.did s.wid s1.seq)) ∨
      (r = .error (.clockRewind s.lts) ∧ s1.lts = s.lts ∧ s1.seq = 0)) := by
  cases r with
  | ok v =>
    obtain ⟨e1, e2, e3, e4, e5, _, _, e8⟩ := nextId_ok_step s s1 v h
    refine ⟨e1, e2, e3, e4, ?_, ?_, ?_, Or.inl (by rw [e5])⟩ <;>
      rcases e8 with ⟨g1, g2, _⟩ | ⟨g1, g2⟩ <;> omega
  | error e =>
    unfold nextId at h
    cases hc : s.clock with
    | nil => simp [hc] at h
    | cons ts clock =>
      simp only [hc] at h
      by_cases heq : s.lts = ts
      · have hlt : ¬ ts < s.lts := by omega
        simp only [heq, if_true] at h
        split at h
        · split at h
          · simp at h
          · rename_i ts1 clock1 hsp
            obtain ⟨h1, _, _⟩ := spinWait_spec ts clock ts ts1 clock1 hsp
            have hlt1 : ¬ ts1 < s.lts := by omega
            simp [nextIdFinish, hlt1] at h
        · simp [nextIdFinish, hlt] at h
      · simp only [heq, if_false] at h
        by_cases hlt : ts < s.lts
        · simp only [nextIdFinish, hlt, if_true, Outcome.ret.injEq, Except.error.injEq] at h
          obtain ⟨rfl, rfl⟩ := h
          exact ⟨rfl, rfl, rfl, rfl, le_refl _, by show (0 : Int) ≤ 4095; omega, le_refl _,
            Or.inr ⟨rfl, rfl, rfl⟩⟩
        · simp [nextIdFinish, hlt] at h

/-- Calls of `nextId` leave the two counters and the two ids alone. -/
theorem nextIds_frame : ∀ (n : Nat) (s s1 : State) (rs : List (Except Err Int)),
    nextIds n s = some (rs, s1) →
    s1.wid = s.wid ∧ s1.did = s.did ∧ s1.rqs = s.rqs ∧ s1.ids = s.ids := by
  intro n
  induction n with
  | zero =>
    intro s s1 rs h
    simp only [nextIds, Option.some.injEq, Prod.mk.injEq] at h
    rw [← h.2]; exact ⟨rfl, rfl, rfl, rfl⟩
  | succ n ih =>
    intro s s2 rs h
    obtain ⟨r, s1, rs1, h1, h2, _⟩ := nextIds_succ_ok n s rs s2 h
    obtain ⟨e1, e2, e3, e4, _⟩ := nextId_ret_step s s1 r h1
    obtain ⟨i1, i2, i3, i4⟩ := ih s1 s2 rs1 h2
    exact ⟨i1.trans e1, i2.trans e2, i3.trans e3, i4.trans e4⟩

/-- One turn of the loop of `serve` whose calls and write succeed. -/
theorem serve_cons_ok (n : Nat) (input : List Nat) (w : Writer) (s s1 : State)
    (rs : List (Except Err Int))
    (hrun : nextIds n s = some (rs, s1)) (hok : ∀ r ∈ rs, ∃ v, r = .ok v)
    (hq : w.quota ≠ some 0) :
    ∃ w1 : Writer, w.write ((okValues rs).map bigEndian).flatten = some w1 ∧
      w1.written = w.written ++ ((okValues rs).map bigEndian).flatten ∧
      serve (n :: input) w s = serve input w1 { s1 with ids := wrapU64 (s1.ids + n) } := by
  have hfill := serveFill_spec n s s1 rs [] 0 hrun hok (by simp)
  simp only [List.nil_append] at hfill
  obtain ⟨w1, hw1, hw2⟩ : ∃ w1, w.write ((okValues rs).map bigEndian).flatten = some w1 ∧
      w1.written = w.written ++ ((okValues rs).map bigEndian).flatten := by
    unfold Writer.write
    cases hq' : w.quota with
    | none => exact ⟨_, rfl, rfl⟩
    | some q =>
      cases q with
      | zero => exact absurd hq' hq
      | succ q => exact ⟨_, rfl, rfl⟩
  exact ⟨w1, hw1, hw2, by simp only [serve, hfill, hw1]⟩

/-- C11: when the `n` calls of a request and the write succeed, the loop of
`serve` goes on in a state whose id counter is the old one plus `n` (set by the
one assignment after the write) and whose request counter is the old one; the
generator fields are those the `n` calls left.  The counter is a `uint64` that
is not at its limit. -/
theorem serve_counts_ids (n : Nat) (input : List Nat) (w : Writer) (s s1 : State)
    (rs : List (Except Err Int))
    (hrun : nextIds n s = some (rs, s1)) (hok : ∀ r ∈ rs, ∃ v, r = .ok v)
    (hq : w.quota ≠ some 0) (hno : s.ids + n < 2 ^ 64) :
    ∃ (w1 : Writer) (s2 : State),
      serve (n :: input) w s = serve input w1 s2 ∧
      s2.ids = s.ids + n ∧ s2.rqs = s.rqs ∧ s1.ids = s.ids ∧
      s2 = { s1 with ids := s.ids + n } := by
  obtain ⟨w1, _, _, hserve⟩ := serve_cons_ok n input w s s1 rs hrun hok hq
  obtain ⟨_, _, f3, f4⟩ := nextIds_frame n s s1 rs hrun
  have hwrap : wrapU64 (s1.ids + n) = s.ids + n := by
    rw [f4]; unfold wrapU64; exact Nat.mod_eq_of_lt hno
  refine ⟨w1, { s1 with ids := s.ids + n }, ?_, rfl, f3, f4, rfl⟩
  rw [hserve, hwrap]

/-- C11 on the request byte 3 with the id counter at 7 and the request counter
at 2: after the batch the id counter is 10 and the request counter is 2. -/
theorem serve_counts_ids_witness :
    ∃ (w1 : Writer) (s2 : State),
      serve (3 :: []) { written := [], quota := none }
          { wid := 5, did := 3, lts := -1, seq := 0, rqs := 2, ids := 7,
            clock := [twepoch + 10, twepoch + 10, twepoch + 11] }
        = serve [] w1 s2 ∧
      s2.ids = 7 + 3 ∧ s2.rqs = 2 ∧
      ({ wid := 5, did := 3, lts := twepoch + 11, seq := 0, rqs := 2, ids := 7,
         clock := [] } : State).ids = 7 ∧
      s2 = { ({ wid := 5, did := 3, lts := twepoch + 11, seq := 0, rqs := 2, ids := 7,
                clock := [] } : State) with ids := 7 + 3 } :=
  serve_counts_ids 3 [] { written := [], quota := none }
    { wid := 5, did := 3, lts := -1, seq := 0, rqs := 2, ids := 7,
      clock := [twepoch + 10, twepoch + 10, twepoch + 11] }
    { wid := 5, did := 3, lts := twepoch + 11, seq := 0, rqs := 2, ids := 7, clock := [] }
    [Except.ok 42356736, Except.ok 42356737, Except.ok 46551040]
    (by decide) (by simp) (by decide) (by decide)

/-- C12, evaluated on the code: with both counters 0, writing `2` to a control
file issues two identifiers and returns 1 (the payload length), yet the id
counter is still 0 and the stats content is `0,0\n` before and after. -/
theorem CtlFile_Write_keeps_ids_counter :
    CtlFile.Write { datafile := [], files := [] } ⟨2026, 11, 4, 9, 5, 7⟩ [50]
        (initState 5 3 [twepoch + 10, twepoch + 10, twepoch + 11])
      = .ret (.ok 1,
          { datafile := [50, 48, 50, 54, 49, 49, 52, 57, 53, 55],
            files := [([50, 48, 50, 54, 49, 49, 52, 57, 53, 55],
              { uuids := [[48, 48, 48, 48, 48, 48, 48, 48, 48, 50, 56, 54, 53, 48, 48, 48, 10],
                          [48, 48, 48, 48, 48, 48, 48, 48, 48, 50, 56, 54, 53, 48, 48, 49, 10]],
                Length := 34 })] })
          { wid := 5, did := 3, lts := twepoch + 10, seq := 1, rqs := 0, ids := 0,
            clock := [twepoch + 11] } ∧
    StatsFile.Read 0 0 (List.replicate 8 0) 8 0 = .done (4, [48, 44, 48, 10, 0, 0, 0, 0]) ∧
    statsContent (initState 5 3 [twepoch + 10, twepoch + 10, twepoch + 11]).rqs
        (initState 5 3 [twepoch + 10, twepoch + 10, twepoch + 11]).ids = [48, 44, 48, 10] ∧
    statsContent 0 2 = [48, 44, 50, 10] := by
  decide

/-! ## The HTTP handler -/

/-- On a reader that does not depend on what is written, `serveBody` is `serve`. -/
theorem serveBody_no_discard : ∀ (input : List Nat) (w : Writer) (s : State),
    serveBody (fun _ _ _ => 0) input 0 w s = serve input w s := by
  intro input
  induction input with
  | nil => intro w s; rfl
  | cons c input ih =>
    intro w s
    simp only [serveBody, serve]
    split
    · split
      · exact ih _ _
      · rfl
    all_goals rfl

/-- Body bytes the server has taken away are not served. -/
theorem serveBody_skip (d : BodyDiscard) : ∀ (input : List Nat) (k : Nat) (w : Writer)
    (s : State), serveBody d input k w s = serveBody d (input.drop k) 0 w s := by
  intro input
  induction input with
  | nil => intro k w s; simp only [List.drop_nil, serveBody]
  | cons c input ih =>
    intro k w s
    cases k with
    | zero => rfl
    | succ k => simp only [serveBody, List.drop_succ_cons]; exact ih k w s

/-- Once the whole unread body is taken away, `serve` returns at its next read. -/
theorem serveBody_skip_all (d : BodyDiscard) (input : List Nat) (k : Nat) (w : Writer)
    (s : State) (h : input.length ≤ k) : serveBody d input k w s = .ret (.eof, w) s := by
  rw [serveBody_skip, List.drop_eq_nil_of_le h]
  simp only [serveBody]

/-- One turn of the loop of `serve` in the handler whose calls and write succeed. -/
theorem serveBody_cons_ok (d : BodyDiscard) (n : Nat) (input : List Nat) (w : Writer)
    (s s1 : State) (rs : List (Except Err Int))
    (hrun : nextIds n s = some (rs, s1)) (hok : ∀ r ∈ rs, ∃ v, r = .ok v)
    (hq : w.quota ≠ some 0) :
    ∃ w1 : Writer, w.write ((okValues rs).map bigEndian).flatten = some w1 ∧
      w1.written = w.written ++ ((okValues rs).map bigEndian).flatten ∧
      w1.written.length = w.written.length + n * 8 ∧
      serveBody d (n :: input) 0 w s
        = serveBody d input (d w.written.length w1.written.length input.length) w1
            { s1 with ids := wrapU64 (s1.ids + n) } := by
  have hfill := serveFill_spec n s s1 rs [] 0 hrun hok (by simp)
  simp only [List.nil_append] at hfill
  obtain ⟨w1, hw1, hw2⟩ : ∃ w1, w.write ((okValues rs).map bigEndian).flatten = some w1 ∧
      w1.written = w.written ++ ((okValues rs).map bigEndian).flatten := by
    unfold Writer.write
    cases hq' : w.quota with
    | none => exact ⟨_, rfl, rfl⟩
    | some q =>
      cases q with
      | zero => exact absurd hq' hq
      | succ q => exact ⟨_, rfl, rfl⟩
  have hlen : (okValues rs).length = n := by
    rw [okValues_all_ok rs hok]; exact nextIds_length n s s1 rs hrun
  refine ⟨w1, hw1, hw2, ?_, by simp only [serveBody, hfill, hw1]⟩
  rw [hw2, List.length_append, flatten_bigEndian_length, hlen]

/-- The handler on a POST is `serve` on the body from its first byte. -/
theorem handler_post (d : BodyDiscard) (body : List Nat) (w : Writer) (s : State) :
    acceptAndServeHTTP_handler d "POST" body w s
      = match serveBody d body 0 w s with
        | .ret (_, w1) s1 => .ret { status := 200, w := w1 } s1
        | .blocked => .blocked
        | .exit => .exit
        | .panic => .panic := by
  have hpost : decide ("POST" ≠ "POST") = false := by decide
  simp only [acceptAndServeHTTP_handler, hpost, Bool.false_eq_true, if_false]

/-- One batch of a POST whose calls and write succeed: the handler goes on as
on the body bytes the server leaves, from the writer and state of the batch. -/
theorem handler_post_cons (d : BodyDiscard) (n : Nat) (rest : List Nat) (w : Writer)
    (s s1 : State) (rs : List (Except Err Int))
    (hrun : nextIds n s = some (rs, s1)) (hok : ∀ r ∈ rs, ∃ v, r = .ok v)
    (hq : w.quota ≠ some 0) :
    ∃ w1 : Writer, w.write ((okValues rs).map bigEndian).flatten = some w1 ∧
      w1.written = w.written ++ ((okValues rs).map bigEndian).flatten ∧
      w1.written.length = w.written.length + n * 8 ∧
      acceptAndServeHTTP_handler d "POST" (n :: rest) w s
        = acceptAndServeHTTP_handler d "POST"
            (rest.drop (d w.written.length w1.written.length rest.length)) w1
            { s1 with ids := wrapU64 (s1.ids + n) } := by
  obtain ⟨w1, hw1, hw2, hw3, hs⟩ := serveBody_cons_ok d n rest w s s1 rs hrun hok hq
  refine ⟨w1, hw1, hw2, hw3, ?_⟩
  rw [handler_post, handler_post, hs, serveBody_skip]

/-- C13, refuted as stated: a POST body of the two bytes 1 and 2 makes the
handler write 24 bytes and issue three identifiers, not the 8 bytes and one
identifier of a single batch for the first byte. -/
theorem http_post_second_byte_is_a_batch :
    acceptAndServeHTTP_handler netHttpDiscard "POST" [1, 2] { written := [], quota := none }
        (initState 5 3 [twepoch + 10, twepoch + 10, twepoch + 11])
      = .ret { status := 200,
               w := { written := [0, 0, 0, 0, 2, 134, 80, 0, 0, 0, 0, 0, 2, 134, 80, 1,
                                  0, 0, 0, 0, 2, 198, 80, 0], quota := none } }
          { wid := 5, did := 3, lts := twepoch + 11, seq := 0, rqs := 0, ids := 3, clock := [] } ∧
    ([0, 0, 0, 0, 2, 134, 80, 0, 0, 0, 0, 0, 2, 134, 80, 1,
      0, 0, 0, 0, 2, 198, 80, 0] : List Nat).length ≠ 1 * 8 := by
  set_option maxRecDepth 8192 in decide

/-- C13, amended: on a POST whose first body byte is `n`, with the `n` calls
and the write succeeding, the handler writes the `n*8` bytes of that batch; on
a body of exactly one byte it answers 200 with exactly those bytes after `n`
calls, whatever the server does to the body; on a longer body it goes on as on
the body bytes the server leaves it, from the writer and state of the batch.
With `netHttpDiscard` the whole rest is left while the response is at most
2048 bytes, and the write that takes the response beyond 2048 bytes is the
last batch when the rest is under 256 KB. -/
theorem http_post_batches (d : BodyDiscard) (n : Nat) (rest : List Nat) (w : Writer)
    (s s1 : State) (rs : List (Except Err Int))
    (hrun : nextIds n s = some (rs, s1)) (hok : ∀ r ∈ rs, ∃ v, r = .ok v)
    (hq : w.quota ≠ some 0) :
    ∃ (b : List Nat) (w1 : Writer),
      b = ((okValues rs).map bigEndian).flatten ∧ b.length = n * 8 ∧
      (okValues rs).length = n ∧ w1.written = w.written ++ b ∧
      acceptAndServeHTTP_handler d "POST" [n] w s
        = .ret { status := 200, w := w1 } { s1 with ids := wrapU64 (s1.ids + n) } ∧
      acceptAndServeHTTP_handler d "POST" (n :: rest) w s
        = acceptAndServeHTTP_handler d "POST"
            (rest.drop (d w.written.length w1.written.length rest.length)) w1
            { s1 with ids := wrapU64 (s1.ids + n) } ∧
      (w1.written.length ≤ 2048 →
        acceptAndServeHTTP_handler netHttpDiscard "POST" (n :: rest) w s
          = acceptAndServeHTTP_handler netHttpDiscard "POST" rest w1
              { s1 with ids := wrapU64 (s1.ids + n) }) ∧
      (w.written.length ≤ 2048 → 2048 < w1.written.length → rest.length < 262144 →
        acceptAndServeHTTP_handler netHttpDiscard "POST" (n :: rest) w s
          = .ret { status := 200, w := w1 } { s1 with ids := wrapU64 (s1.ids + n) }) := by
  obtain ⟨w1, hw1, hw2, _, hstep⟩ := handler_post_cons d n rest w s s1 rs hrun hok hq
  have hlen : (okValues rs).length = n := by
    rw [okValues_all_ok rs hok]; exact nextIds_length n s s1 rs hrun
  have hsame : ∀ (e : BodyDiscard) (input : List Nat),
      acceptAndServeHTTP_handler e "POST" (n :: input) w s
        = acceptAndServeHTTP_handler e "POST"
            (input.drop (e w.written.length w1.written.length input.length)) w1
            { s1 with ids := wrapU64 (s1.ids + n) } := by
    intro e input
    obtain ⟨w2, hw, _, _, hs⟩ := handler_post_cons e n input w s s1 rs hrun hok hq
    have hw21 : w2 = w1 := Option.some.inj (hw.symm.trans hw1)
    rw [hs, hw21]
  have hnil : ∀ (e : BodyDiscard) (w2 : Writer) (s2 : State),
      acceptAndServeHTTP_handler e "POST" [] w2 s2 = .ret { status := 200, w := w2 } s2 := by
    intro e w2 s2
    rw [handler_post]
    simp only [serveBody]
  refine ⟨_, w1, rfl, ?_, hlen, hw2, ?_, hstep, ?_, ?_⟩
  · rw [flatten_bigEndian_length, hlen]
  · rw [hsame d [], List.drop_nil, hnil]
  · intro hfit
    have h0 : netHttpDiscard w.written.length w1.written.length rest.length = 0 := by
      unfold netHttpDiscard
      rw [if_neg]
      omega
    rw [hsame netHttpDiscard rest, h0, List.drop_zero]
  · intro hb ha hr
    have h0 : netHttpDiscard w.written.length w1.written.length rest.length = rest.length := by
      unfold netHttpDiscard
      rw [if_pos ⟨hb, ha, hr⟩]
    rw [hsame netHttpDiscard rest, h0, List.drop_length, hnil]

/-- C13 amended, on the request byte 1 followed by the byte 2, with worker 5,
datacenter 3 and clock readings T, T, T+1: the first batch is the 8 bytes of
one identifier, a body of the byte 1 alone gets exactly those with status 200,
and with the byte 2 behind it the handler goes on to a second batch. -/
theorem http_post_batches_witness :
    (∃ (b : List Nat) (w1 : Writer),
      b = ((okValues [Except.ok 42356736]).map bigEndian).flatten ∧
      b.length = 1 * 8 ∧
      (okValues [Except.ok 42356736]).length = 1 ∧
      w1.written = ([] : List Nat) ++ b ∧
      acceptAndServeHTTP_handler netHttpDiscard "POST" [1] { written := [], quota := none }
          (initState 5 3 [twepoch + 10, twepoch + 10, twepoch + 11])
        = .ret { status := 200, w := w1 }
            { ({ wid := 5, did := 3, lts := twepoch + 10, seq := 0, rqs := 0, ids := 0,
                 clock := [twepoch + 10, twepoch + 11] } : State) with ids := wrapU64 (0 + 1) } ∧
      acceptAndServeHTTP_handler netHttpDiscard "POST" (1 :: [2]) { written := [], quota := none }
          (initState 5 3 [twepoch + 10, twepoch + 10, twepoch + 11])
        = acceptAndServeHTTP_handler netHttpDiscard "POST"
            (([2] : List Nat).drop (netHttpDiscard ([] : List Nat).length w1.written.length
              ([2] : List Nat).length)) w1
            { ({ wid := 5, did := 3, lts := twepoch + 10, seq := 0, rqs := 0, ids := 0,
                 clock := [twepoch + 10, twepoch + 11] } : State) with ids := wrapU64 (0 + 1) } ∧
      (w1.written.length ≤ 2048 →
        acceptAndServeHTTP_handler netHttpDiscard "POST" (1 :: [2])
            { written := [], quota := none }
            (initState 5 3 [twepoch + 10, twepoch + 10, twepoch + 11])
          = acceptAndServeHTTP_handler netHttpDiscard "POST" [2] w1
              { ({ wid := 5, did := 3, lts := twepoch + 10, seq := 0, rqs := 0, ids := 0,
                   clock := [twepoch + 10, twepoch + 11] } : State)
                with ids := wrapU64 (0 + 1) }) ∧
      (([] : List Nat).length ≤ 2048 → 2048 < w1.written.length →
        ([2] : List Nat).length < 262144 →
        acceptAndServeHTTP_handler netHttpDiscard "POST" (1 :: [2])
            { written := [], quota := none }
            (initState 5 3 [twepoch + 10, twepoch + 10, twepoch + 11])
          = .ret { status := 200, w := w1 }
              { ({ wid := 5, did := 3, lts := twepoch + 10, seq := 0, rqs := 0, ids := 0,
                   clock := [twepoch + 10, twepoch + 11] } : State)
                with ids := wrapU64 (0 + 1) })) ∧
    acceptAndServeHTTP_handler netHttpDiscard "POST" [1] { written := [], quota := none }
        (initState 5 3 [twepoch + 10, twepoch + 10, twepoch + 11])
      = .ret { status := 200,
               w := { written := [0, 0, 0, 0, 2, 134, 80, 0], quota := none } }
          { wid := 5, did := 3, lts := twepoch + 10, seq := 0, rqs := 0, ids := 1,
            clock := [twepoch + 10, twepoch + 11] } :=
  ⟨http_post_batches netHttpDiscard 1 [2] { written := [], quota := none }
      (initState 5 3 [twepoch + 10, twepoch + 10, twepoch + 11])
      { wid := 5, did := 3, lts := twepoch + 10, seq := 0, rqs := 0, ids := 0,
        clock := [twepoch + 10, twepoch + 11] }
      [Except.ok 42356736]
      (by decide) (by simp) (by decide),
    by set_option maxRecDepth 8192 in decide⟩

/-- Three full batches requested in one POST: the first batch leaves the
response at 2040 bytes, the second takes it to 4080 bytes, beyond the buffer,
so the third request byte is never read: 510 identifiers are issued and the
readings meant for the third batch are still unused. -/
theorem http_post_outgrows_buffer :
    ∃ (w2 : Writer) (s2 : State),
      acceptAndServeHTTP_handler netHttpDiscard "POST" [255, 255, 255]
          { written := [], quota := none }
          (initState 5 3 (List.replicate 255 (twepoch + 10) ++
            (List.replicate 255 (twepoch + 11) ++ List.replicate 255 (twepoch + 12))))
        = .ret { status := 200, w := w2 } s2 ∧
      w2.written.length = 4080 ∧ s2.ids = 510 ∧
      s2.clock = List.replicate 255 (twepoch + 12) := by
  have hoks : ∀ (T : Int) (r : Except Err Int),
      r ∈ Except.ok (packId T 3 5 0) ::
        (List.range 254).map (fun (i : Nat) => Except.ok (packId T 3 5 (0 + 1 + (i : Int)))) →
      ∃ v, r = .ok v := by
    intro T r hr
    simp only [List.mem_cons, List.mem_map] at hr
    rcases hr with rfl | ⟨i, _, rfl⟩
    · exact ⟨_, rfl⟩
    · exact ⟨_, rfl⟩
  have r1 := nextIds_fresh_ms 254
    (initState 5 3 (List.replicate 255 (twepoch + 10) ++
      (List.replicate 255 (twepoch + 11) ++ List.replicate 255 (twepoch + 12))))
    (twepoch + 10) (List.replicate 255 (twepoch + 11) ++ List.replicate 255 (twepoch + 12))
    rfl (by decide) (by omega)
  obtain ⟨w1, hw1, _, hl1, e1⟩ := handler_post_cons netHttpDiscard 255 [255, 255]
    { written := [], quota := none } _ _ _ r1 (hoks _) (by decide)
  have q1 : w1.quota = none := by
    simp only [Writer.write, Option.some.injEq] at hw1
    rw [← hw1]
  have d1 : netHttpDiscard ([] : List Nat).length w1.written.length
      ([255, 255] : List Nat).length = 0 := by
    unfold netHttpDiscard
    rw [hl1]
    decide
  rw [d1, List.drop_zero] at e1
  have r2 := nextIds_fresh_ms 254
    { wid := 5, did := 3, lts := twepoch + 10, seq := 254, rqs := 0, ids := wrapU64 (0 + 255),
      clock := List.replicate 255 (twepoch + 11) ++ List.replicate 255 (twepoch + 12) }
    (twepoch + 11) (List.replicate 255 (twepoch + 12)) rfl (by decide) (by omega)
  obtain ⟨w2, _, _, hl2, e2⟩ := handler_post_cons netHttpDiscard 255 [255] w1 _ _ _ r2
    (hoks _) (by rw [q1]; decide)
  have d2 : netHttpDiscard w1.written.length w2.written.length ([255] : List Nat).length
      = 1 := by
    unfold netHttpDiscard
    rw [hl2, hl1]
    decide
  rw [d2] at e2
  refine ⟨w2,
    { wid := 5, did := 3, lts := twepoch + 11, seq := 254, rqs := 0, ids := 510,
      clock := List.replicate 255 (twepoch + 12) }, ?_, ?_, rfl, rfl⟩
  · exact e1.trans (e2.trans (by rw [handler_post]; rfl))
  · rw [hl2, hl1]; rfl

/-- C14, evaluated on the code: a GET request whose body is the byte 1 gets the
not-found reply and then the handler still runs `serve` on the body: one
identifier is issued, its eight bytes follow the not-found text in the
response, `lts` moves and the id counter becomes 1. -/
theorem http_get_still_serves :
    acceptAndServeHTTP_handler netHttpDiscard "GET" [1] { written := [], quota := none }
        (initState 5 3 [twepoch + 10, twepoch + 11])
      = .ret { status := 404,
               w := { written := notFoundText ++ [0, 0, 0, 0, 2, 134, 80, 0], quota := none } }
          { wid := 5, did := 3, lts := twepoch + 10, seq := 0, rqs := 0, ids := 1,
            clock := [twepoch + 11] } ∧
    acceptAndServeHTTP_handler netHttpDiscard "GET" [] { written := [], quota := none }
        (initState 5 3 [twepoch + 10, twepoch + 11])
      = .ret { status := 404, w := { written := notFoundText, quota := none } }
          (initState 5 3 [twepoch + 10, twepoch + 11]) := by
  set_option maxRecDepth 8192 in decide


/-! ## The generator state -/

/-- C17: a call of `nextId` that returns, successful or failed, leaves the
sequence in 0..4095 and `lts` at least as large as before; `lts` differs from
before only when the call succeeded, and a successful call returns the
identifier packed from the new `lts` and sequence, whose timestamp field is
the new `lts` minus the epoch when the ids and the reading are in range.  The
bounds on the sequence hold whatever it was before the call. -/
theorem nextId_state_invariant (s s1 : State) (r : Except Err Int)
    (h : nextId s = .ret r s1) :
    (0 ≤ s1.seq ∧ s1.seq ≤ 4095) ∧ s.lts ≤ s1.lts ∧
    (s1.lts ≠ s.lts → ∃ v, r = .ok v) ∧
    (∀ e, r = .error e → s1.lts = s.lts ∧ e = .clockRewind s.lts) ∧
    (∀ v, r = .ok v →
      v = packId s1.lts s1.did s1.wid s1.seq ∧
      ((0 ≤ s.did ∧ s.did ≤ 31) → (0 ≤ s.wid ∧ s.wid ≤ 31) → InRange s1.lts →
        timestampOf v = s1.lts - twepoch ∧ timestampOf v + twepoch = s1.lts)) := by
  obtain ⟨e1, e2, _, _, e5, e6, e7, e8⟩ := nextId_ret_step s s1 r h
  refine ⟨⟨e5, e6⟩, e7, ?_, ?_, ?_⟩
  · intro hne
    rcases e8 with g | ⟨_, g, _⟩
    · exact ⟨_, g⟩
    · exact absurd g hne
  · intro e he
    rcases e8 with g | ⟨g1, g2, _⟩
    · rw [g] at he; cases he
    · rw [g1] at he
      exact ⟨g2, (Except.error.inj he).symm⟩
  · intro v hv
    rcases e8 with g | ⟨g, _, _⟩
    · rw [g] at hv
      have hv1 : v = packId s1.lts s.did s.wid s1.seq := (Except.ok.inj hv).symm
      refine ⟨by rw [e1, e2]; exact hv1, fun hd hw hr => ?_⟩
      have ht := timestampOf_packId s1.lts s.did s.wid s1.seq hd hw ⟨e5, e6⟩ hr
      rw [hv1, ht]
      exact ⟨rfl, by omega⟩
    · rw [g] at hv; cases hv

/-- C17 on a generator at T = twepoch+10 with sequence 6: a reading of T
returns the identifier with sequence 7 and keeps `lts`. -/
theorem nextId_state_invariant_witness :
    (0 ≤ (7 : Int) ∧ (7 : Int) ≤ 4095) ∧ twepoch + 10 ≤ twepoch + 10 ∧
    (twepoch + 10 ≠ twepoch + 10 → ∃ v, (Except.ok 42356743 : Except Err Int) = .ok v) ∧
    (∀ e, (Except.ok 42356743 : Except Err Int) = .error e →
      twepoch + 10 = twepoch + 10 ∧ e = .clockRewind (twepoch + 10)) ∧
    (∀ v, (Except.ok 42356743 : Except Err Int) = .ok v →
      v = packId (twepoch + 10) 3 5 7 ∧
      ((0 ≤ (3 : Int) ∧ (3 : Int) ≤ 31) → (0 ≤ (5 : Int) ∧ (5 : Int) ≤ 31) →
        InRange (twepoch + 10) →
        timestampOf v = twepoch + 10 - twepoch ∧ timestampOf v + twepoch = twepoch + 10)) :=
  nextId_state_invariant
    { wid := 5, did := 3, lts := twepoch + 10, seq := 6, rqs := 0, ids := 0,
      clock := [twepoch + 10] }
    { wid := 5, did := 3, lts := twepoch + 10, seq := 7, rqs := 0, ids := 0, clock := [] }
    (Except.ok 42356743) (by decide)

/-- C18, evaluated on the code: the constant `twepoch` is the millisecond count
of Thu, 04 Nov 2010 01:42:54.657 GMT; the instant named in its comment,
Tue, 21 Mar 2006 20:50:14.000 GMT, is 1142974214000 ms, a different number. -/
theorem twepoch_is_not_the_commented_date :
    twepoch = unixMillis 2010 11 4 1 42 54 657 ∧
    unixMillis 2006 3 21 20 50 14 0 = 1142974214000 ∧
    (daysFromCivil 2006 3 21 + 4) % 7 = 2 ∧
    twepoch ≠ unixMillis 2006 3 21 20 50 14 0 ∧
    twepoch - unixMillis 2006 3 21 20 50 14 0 = 145860760657 := by
  decide

/-- C20: when a call reads a time below `lts` and the next reading equals
`lts`, the first call fails with the rewind error, keeps `lts` and sets the
sequence to 0, and the second call returns the identifier of `lts` with
sequence 1, whatever the sequence was before (ids in 0..31 for the field to
read back). -/
theorem nextId_failed_call_resets_seq (s : State) (t : Int) (rest : List Int)
    (hc : s.clock = t :: s.lts :: rest) (ht : t < s.lts)
    (hd : 0 ≤ s.did ∧ s.did ≤ 31) (hw : 0 ≤ s.wid ∧ s.wid ≤ 31) :
    nextId s = .ret (.error (.clockRewind s.lts)) { s with seq := 0, clock := s.lts :: rest } ∧
    nextId { s with seq := 0, clock := s.lts :: rest }
      = .ret (.ok (packId s.lts s.did s.wid 1)) { s with seq := 1, clock := rest } ∧
    sequenceOf (packId s.lts s.did s.wid 1) = 1 := by
  have hne : ¬ s.lts = t := by omega
  refine ⟨by simp [nextId, hc, hne, nextIdFinish, ht], ?_,
    sequenceOf_packId _ _ _ _ hd hw (by omega)⟩
  have h := nextId_same_ms { s with seq := 0, clock := s.lts :: rest } rest rfl
    (by show (0 : Int) ≤ 0; omega) (by show (0 : Int) + 1 ≤ 4095; omega)
  rw [h]
  rfl

/-- C20 on a generator at T = twepoch+10 with sequence 6 that reads T-1, then T. -/
theorem nextId_failed_call_resets_seq_witness :
    nextId { wid := 5, did := 3, lts := twepoch + 10, seq := 6, rqs := 0, ids := 0,
             clock := [twepoch + 9, twepoch + 10] }
      = .ret (.error (.clockRewind (twepoch + 10)))
          { wid := 5, did := 3, lts := twepoch + 10, seq := 0, rqs := 0, ids := 0,
            clock := [twepoch + 10] } ∧
    nextId { wid := 5, did := 3, lts := twepoch + 10, seq := 0, rqs := 0, ids := 0,
             clock := [twepoch + 10] }
      = .ret (.ok (packId (twepoch + 10) 3 5 1))
          { wid := 5, did := 3, lts := twepoch + 10, seq := 1, rqs := 0, ids := 0, clock := [] } ∧
    sequenceOf (packId (twepoch + 10) 3 5 1) = 1 :=
  nextId_failed_call_resets_seq
    { wid := 5, did := 3, lts := twepoch + 10, seq := 6, rqs := 0, ids := 0,
      clock := [twepoch + 9, twepoch + 10] }
    (twepoch + 9) [] rfl (by decide) (by decide) (by decide)

/-- Two identifiers of one generator with in-range fields compare like their
(timestamp, sequence) pairs. -/
theorem packId_lt_of_ts_lt (t1 t2 did wid q1 q2 : Int) (hd : 0 ≤ did ∧ did ≤ 31)
    (hw : 0 ≤ wid ∧ wid ≤ 31) (h1 : 0 ≤ q1 ∧ q1 ≤ 4095) (h2 : 0 ≤ q2 ∧ q2 ≤ 4095)
    (r1 : InRange t1) (r2 : InRange t2) (hlt : t1 < t2) :
    packId t1 did wid q1 < packId t2 did wid q2 := by
  rw [packId_value t1 did wid q1 hd hw h1 r1, packId_value t2 did wid q2 hd hw h2 r2]
  omega

/-- How the identifier of a successful call relates to the identifier packed
from the state before it: larger, with the next sequence number in the same
millisecond or sequence 0 in a later one. -/
theorem nextId_ok_adjacent (s s1 : State) (v : Int) (h : nextId s = .ret (.ok v) s1)
    (hd : 0 ≤ s.did ∧ s.did ≤ 31) (hw : 0 ≤ s.wid ∧ s.wid ≤ 31)
    (hs : 0 ≤ s.seq ∧ s.seq ≤ 4095) (hl : InRange s.lts) (hc : ∀ t ∈ s.clock, InRange t) :
    packId s.lts s.did s.wid s.seq < v ∧
    (timestampOf (packId s.lts s.did s.wid s.seq) = timestampOf v →
      sequenceOf v = sequenceOf (packId s.lts s.did s.wid s.seq) + 1) ∧
    (timestampOf (packId s.lts s.did s.wid s.seq) ≠ timestampOf v →
      timestampOf (packId s.lts s.did s.wid s.seq) < timestampOf v ∧ sequenceOf v = 0) := by
  obtain ⟨_, _, _, _, e5, e6, _, e8⟩ := nextId_ok_step s s1 v h
  have hs1 : 0 ≤ s1.seq ∧ s1.seq ≤ 4095 := by
    rcases e8 with ⟨_, e, _⟩ | ⟨_, e⟩ <;> omega
  have hl1 : InRange s1.lts := hc _ e6
  have hu := packId_value s.lts s.did s.wid s.seq hd hw hs hl
  have hv := packId_value s1.lts s.did s.wid s1.seq hd hw hs1 hl1
  have tu := timestampOf_packId s.lts s.did s.wid s.seq hd hw hs hl
  have tv := timestampOf_packId s1.lts s.did s.wid s1.seq hd hw hs1 hl1
  have qu := sequenceOf_packId s.lts s.did s.wid s.seq hd hw hs
  have qv := sequenceOf_packId s1.lts s.did s.wid s1.seq hd hw hs1
  rw [e5, tu, tv, qu, qv]
  refine ⟨?_, ?_, ?_⟩
  · rw [hu, hv]
    rcases e8 with ⟨g1, g2, g3⟩ | ⟨g1, g2⟩ <;> omega
  · intro heq
    rcases e8 with ⟨g1, g2, g3⟩ | ⟨g1, g2⟩ <;> omega
  · intro hne
    rcases e8 with ⟨g1, g2, g3⟩ | ⟨g1, g2⟩
    · exact absurd (by rw [g1]) hne
    · exact ⟨by omega, g2⟩

/-- The relation of `nextId_ok_adjacent` between each identifier of a run
without failures and the next one, and between the start state and the first. -/
theorem nextIds_adjacent : ∀ (n : Nat) (s s1 : State) (rs : List (Except Err Int)),
    (0 ≤ s.did ∧ s.did ≤ 31) → (0 ≤ s.wid ∧ s.wid ≤ 31) → (0 ≤ s.seq ∧ s.seq ≤ 4095) →
    InRange s.lts → (∀ t ∈ s.clock, InRange t) →
    nextIds n s = some (rs, s1) → (∀ r ∈ rs, ∃ v, r = .ok v) →
    ∀ (i : Nat) (a b : Int),
      (packId s.lts s.did s.wid s.seq :: okValues rs)[i]? = some a →
      (packId s.lts s.did s.wid s.seq :: okValues rs)[i + 1]? = some b →
      a < b ∧ (timestampOf a = timestampOf b → sequenceOf b = sequenceOf a + 1) ∧
      (timestampOf a ≠ timestampOf b → timestampOf a < timestampOf b ∧ sequenceOf b = 0) := by
  intro n
  induction n with
  | zero =>
    intro s s1 rs _ _ _ _ _ h _ i a b _ hb
    simp only [nextIds, Option.some.injEq, Prod.mk.injEq] at h
    rw [← h.1] at hb
    simp [okValues] at hb
  | succ n ih =>
    intro s s2 rs hd hw hs hl hc h hok i a b ha hb
    obtain ⟨r, s1, rs1, h1, h2, rfl⟩ := nextIds_succ_ok n s rs s2 h
    obtain ⟨v, rfl⟩ := hok r (by simp)
    obtain ⟨e1, e2, _, _, e5, e6, e7, e8⟩ := nextId_ok_step s s1 v h1
    have hs1 : 0 ≤ s1.seq ∧ s1.seq ≤ 4095 := by
      rcases e8 with ⟨_, e, _⟩ | ⟨_, e⟩ <;> omega
    simp only [okValues] at ha hb
    cases i with
    | zero =>
      simp only [List.getElem?_cons_zero, Option.some.injEq, Nat.zero_add,
        List.getElem?_cons_succ] at ha hb
      subst ha
      subst hb
      exact nextId_ok_adjacent s s1 _ h1 hd hw hs hl hc
    | succ j =>
      simp only [List.getElem?_cons_succ] at ha hb
      have hrec := ih s1 s2 rs1 (e2 ▸ hd) (e1 ▸ hw) hs1 (hc _ e6)
        (fun t ht => hc t (e7 t ht)) h2 (fun r hr => hok r (List.mem_cons_of_mem _ hr)) j a b
      rw [e1, e2, ← e5] at hrec
      exact hrec ha (by simpa using hb)

/-- C19: in a run of calls none of which fails (ids in 0..31, clock readings
within the 41-bit range), the returned values are strictly increasing; each
value and the next either share the timestamp field and have consecutive
sequence fields, or the next has a later timestamp field and sequence 0; and
an identifier with a later timestamp is larger whatever the two sequences. -/
theorem nextIds_monotone_without_rewind (n : Nat) (s s1 : State) (rs : List (Except Err Int))
    (hd : 0 ≤ s.did ∧ s.did ≤ 31) (hw : 0 ≤ s.wid ∧ s.wid ≤ 31)
    (hc : ∀ t ∈ s.clock, InRange t)
    (hrun : nextIds n s = some (rs, s1)) (hok : ∀ r ∈ rs, ∃ v, r = .ok v) :
    (okValues rs).length = n ∧
    (okValues rs).Pairwise (fun a b => a < b) ∧
    (∀ (i : Nat) (a b : Int), (okValues rs)[i]? = some a → (okValues rs)[i + 1]? = some b →
      a < b ∧ (timestampOf a = timestampOf b → sequenceOf b = sequenceOf a + 1) ∧
      (timestampOf a ≠ timestampOf b → timestampOf a < timestampOf b ∧ sequenceOf b = 0)) ∧
    (∀ (t1 t2 q1 q2 : Int), InRange t1 → InRange t2 → (0 ≤ q1 ∧ q1 ≤ 4095) →
      (0 ≤ q2 ∧ q2 ≤ 4095) → t1 < t2 → packId t1 s.did s.wid q1 < packId t2 s.did s.wid q2) := by
  refine ⟨?_, nextIds_increasing n s s1 rs hd hw hc hrun hok, ?_,
    fun t1 t2 q1 q2 r1 r2 h1 h2 hlt => packId_lt_of_ts_lt t1 t2 _ _ q1 q2 hd hw h1 h2 r1 r2 hlt⟩
  · rw [okValues_all_ok rs hok]; exact nextIds_length n s s1 rs hrun
  · cases n with
    | zero =>
      intro i a b ha _
      simp only [nextIds, Option.some.injEq, Prod.mk.injEq] at hrun
      rw [← hrun.1] at ha
      simp [okValues] at ha
    | succ m =>
      obtain ⟨r, sa, rs1, h1, h2, rfl⟩ := nextIds_succ_ok m s rs s1 hrun
      obtain ⟨v, rfl⟩ := hok r (by simp)
      obtain ⟨e1, e2, _, _, e5, e6, e7, e8⟩ := nextId_ok_step s sa v h1
      have hsa : 0 ≤ sa.seq ∧ sa.seq ≤ 4095 := by
        rcases e8 with ⟨_, e, _⟩ | ⟨_, e⟩ <;> omega
      have hadj := nextIds_adjacent m sa s1 rs1 (e2 ▸ hd) (e1 ▸ hw) hsa (hc _ e6)
        (fun t ht => hc t (e7 t ht)) h2 (fun r hr => hok r (List.mem_cons_of_mem _ hr))
      rw [e1, e2, ← e5] at hadj
      intro i a b ha hb
      exact hadj i a b (by simpa [okValues] using ha) (by simpa [okValues] using hb)

/-- C19 on worker 5, datacenter 3 and the readings T, T, T+1 (T = twepoch+10):
the three values 42356736, 42356737, 46551040. -/
theorem nextIds_monotone_without_rewind_witness :
    (okValues [Except.ok 42356736, Except.ok 42356737, Except.ok 46551040]).length = 3 ∧
    (okValues [Except.ok 42356736, Except.ok 42356737, Except.ok 46551040]).Pairwise
      (fun a b => a < b) ∧
    (∀ (i : Nat) (a b : Int),
      (okValues [Except.ok 42356736, Except.ok 42356737, Except.ok 46551040])[i]? = some a →
      (okValues [Except.ok 42356736, Except.ok 42356737, Except.ok 46551040])[i + 1]? = some b →
      a < b ∧ (timestampOf a = timestampOf b → sequenceOf b = sequenceOf a + 1) ∧
      (timestampOf a ≠ timestampOf b → timestampOf a < timestampOf b ∧ sequenceOf b = 0)) ∧
    (∀ (t1 t2 q1 q2 : Int), InRange t1 → InRange t2 → (0 ≤ q1 ∧ q1 ≤ 4095) →
      (0 ≤ q2 ∧ q2 ≤ 4095) → t1 < t2 →
      packId t1 (initState 5 3 [twepoch + 10, twepoch + 10, twepoch + 11]).did
          (initState 5 3 [twepoch + 10, twepoch + 10, twepoch + 11]).wid q1
        < packId t2 (initState 5 3 [twepoch + 10, twepoch + 10, twepoch + 11]).did
          (initState 5 3 [twepoch + 10, twepoch + 10, twepoch + 11]).wid q2) :=
  nextIds_monotone_without_rewind 3
    (initState 5 3 [twepoch + 10, twepoch + 10, twepoch + 11])
    { wid := 5, did := 3, lts := twepoch + 11, seq := 0, rqs := 0, ids := 0, clock := [] }
    [Except.ok 42356736, Except.ok 42356737, Except.ok 46551040]
    (by decide) (by decide)
    (by
      intro t ht
      simp only [initState, List.mem_cons, List.mem_singleton, List.not_mem_nil, or_false] at ht
      rcases ht with rfl | rfl | rfl <;> exact ⟨by decide, by decide⟩)
    (by decide) (by simp)


/-! ## Decimal strings -/

theorem digitChar_toNat (d : Nat) (h : d < 10) : (Nat.digitChar d).toNat = 48 + d := by
  interval_cases d <;> rfl

/-- The digit loop of `Nat.toDigits` does not depend on its fuel. -/
theorem toDigitsCore_eq : ∀ (fuel n : Nat) (ds : List Char), n < fuel →
    Nat.toDigitsCore 10 fuel n ds = Nat.toDigits 10 n ++ ds := by
  intro fuel
  induction fuel using Nat.strong_induction_on with
  | _ fuel ih =>
    intro n ds hn
    cases fuel with
    | zero => omega
    | succ f =>
      by_cases hz : n / 10 = 0
      · simp [Nat.toDigits, Nat.toDigitsCore, hz]
      · have h1 : n / 10 < f := by omega
        have h2 : n / 10 < n := by omega
        have e1 := ih f (by omega) (n / 10) (Nat.digitChar (n % 10) :: ds) h1
        have e2 := ih n (by omega) (n / 10) [Nat.digitChar (n % 10)] h2
        simp only [Nat.toDigits, Nat.toDigitsCore, hz, if_false] at e1 e2 ⊢
        rw [e1, e2]
        simp

theorem decimal_lt_ten (n : Nat) (h : n < 10) : decimal n = [48 + n] := by
  have hz : n / 10 = 0 := by omega
  have hm : n % 10 = n := by omega
  simp [decimal, Nat.toDigits, Nat.toDigitsCore, hz, hm, digitChar_toNat n h]

theorem decimal_ge_ten (n : Nat) (h : 10 ≤ n) :
    decimal n = decimal (n / 10) ++ [48 + n % 10] := by
  have hz : ¬ n / 10 = 0 := by omega
  have e := toDigitsCore_eq n (n / 10) [Nat.digitChar (n % 10)] (by omega)
  simp only [decimal, Nat.toDigits, Nat.toDigitsCore, hz, if_false] at e ⊢
  rw [e]
  simp [digitChar_toNat (n % 10) (by omega)]

theorem decimal_ne_nil (n : Nat) : decimal n ≠ [] := by
  by_cases h : n < 10
  · rw [decimal_lt_ten n h]; simp
  · rw [decimal_ge_ten n (by omega)]; simp

/-- Reading the decimal string of a number gives the number back. -/
theorem digitsValue_decimal : ∀ (n : Nat), digitsValue (decimal n) = some n := by
  intro n
  have key : ∀ (n : Nat), (decimal n).foldl (fun acc c =>
      match acc with
      | some v => if 48 ≤ c ∧ c ≤ 57 then some (v * 10 + (c - 48)) else none
      | none => none) (some 0) = some n := by
    intro n
    induction n using Nat.strong_induction_on with
    | _ n ih =>
      by_cases h : n < 10
      · rw [decimal_lt_ten n h]
        have h1 : 48 ≤ 48 + n ∧ 48 + n ≤ 57 := by omega
        simp [List.foldl, h1]
      · rw [decimal_ge_ten n (by omega), List.foldl_append, ih (n / 10) (by omega)]
        have h1 : 48 ≤ 48 + n % 10 ∧ 48 + n % 10 ≤ 57 := by omega
        simp only [List.foldl, h1, and_self, if_true]
        congr 1
        omega
  have hne := decimal_ne_nil n
  unfold digitsValue
  split
  · rename_i heq; exact absurd heq hne
  · exact key n

theorem decimal_injective (a b : Nat) (h : decimal a = decimal b) : a = b := by
  have ha := digitsValue_decimal a
  rw [h, digitsValue_decimal b] at ha
  exact (Option.some.inj ha).symm

theorem decimal_ne_reserved (n : Nat) : decimal n ≠ cloneName ∧ decimal n ≠ statsName := by
  have hv := digitsValue_decimal n
  have hc : digitsValue cloneName = none := by decide
  have hs : digitsValue statsName = none := by decide
  constructor
  · intro h
    rw [h, hc] at hv
    cases hv
  · intro h
    rw [h, hs] at hv
    cases hv

/-! ## The clone file -/

theorem Clone_Read_nonzero (t : Tree) (buf : List Nat) (offset : Nat) (h : 0 < offset) :
    Clone.Read t buf offset = ((.ok 0, buf), t) := by
  simp [Clone.Read, h]

/-- A read at offset 0 on a tree whose directory names are the decimal strings
of numbers in `1..clones`: the counter goes up by one and, when the buffer has
room, the directory of the new number is created and its name returned;
otherwise the directory is removed again. -/
theorem Clone_Read_zero (t : Tree) (buf : List Nat) (c : Nat)
    (hc : t.clones + 1 = (c : Int)) (hroom : (c : Int) < 2 ^ 63)
    (hinv : ∀ name ∈ t.dirs.map Prod.fst, ∃ j : Nat, j < c ∧ name = decimal j) :
    Clone.Read t buf 0 =
      if buf.length < (decimal c).length then
        ((.error .notEnoughBuffer, buf), { clones := (c : Int), dirs := t.dirs })
      else
        ((.ok (decimal c).length, decimal c ++ buf.drop (decimal c).length),
          { clones := (c : Int), dirs := (decimal c, { datafile := [], files := [] }) :: t.dirs }) := by
  have hw : wrap64 (t.clones + 1) = (c : Int) := by
    rw [hc]; exact wrap64_of_isInt64 _ ⟨by omega, hroom⟩
  have hitoa : itoa (c : Int) = decimal c := by
    have : ¬ (c : Int) < 0 := by omega
    simp [itoa, this]
  have hfresh : decimal c ∉ t.dirs.map Prod.fst := by
    intro hmem
    obtain ⟨j, hj, hname⟩ := hinv _ hmem
    have := decimal_injective c j hname
    omega
  have hres := decimal_ne_reserved c
  have hadd : ({ t with clones := (c : Int) } : Tree).add (decimal c) { datafile := [], files := [] }
      = some { clones := (c : Int),
               dirs := (decimal c, { datafile := [], files := [] }) :: t.dirs } := by
    simp [Tree.add, hres.1, hres.2, hfresh]
  have hfilter : t.dirs.filter (fun e => decide (e.1 ≠ decimal c)) = t.dirs := by
    rw [List.filter_eq_self]
    intro e he
    have : e.1 ≠ decimal c := fun h => hfresh (h ▸ List.mem_map_of_mem Prod.fst he)
    simp [this]
  simp only [Clone.Read, Nat.lt_irrefl, if_false, hw, hitoa, hadd]
  by_cases hb : buf.length < (decimal c).length
  · simp only [hb, if_true, Tree.remove]
    rw [List.filter_cons_of_neg (by simp), hfilter]
  · simp only [hb, if_false, copyInto]
    rw [List.take_of_length_le (by omega)]

/-- A run of reads from a tree whose directory names are decimal strings of
numbers in `1..clones`: the counter grows by the number of reads at offset 0,
the names returned are the decimal strings of increasing numbers above the old
counter, and the directories are those names, latest first, before the old ones. -/
theorem Clone_reads_spec : ∀ (reqs : List (List Nat × Nat)) (t : Tree) (c : Nat),
    t.clones = (c : Int) → (c : Int) + reqs.length < 2 ^ 63 →
    (∀ name ∈ t.dirs.map Prod.fst, ∃ j : Nat, j ≤ c ∧ name = decimal j) →
    (Clone.reads reqs t).2.clones = ((c + readsAtZero reqs : Nat) : Int) ∧
    ∃ js : List Nat,
      returnedNames (Clone.reads reqs t).1 = js.map decimal ∧
      js.Pairwise (fun a b => a < b) ∧
      (∀ j ∈ js, c < j ∧ j ≤ c + readsAtZero reqs) ∧
      (Clone.reads reqs t).2.dirs.map Prod.fst = (js.map decimal).reverse ++ t.dirs.map Prod.fst := by
  intro reqs
  induction reqs with
  | nil =>
    intro t c hc _ _
    exact ⟨by simp [Clone.reads, readsAtZero, hc], [], by simp [Clone.reads, returnedNames]⟩
  | cons q rest ih =>
    intro t c hc hroom hinv
    obtain ⟨buf, offset⟩ := q
    simp only [List.length_cons] at hroom
    by_cases hoff : 0 < offset
    · have hstep := Clone_Read_nonzero t buf offset hoff
      have hne : ¬ offset = 0 := by omega
      obtain ⟨i1, js, i2, i3, i4, i5⟩ := ih t c hc (by push_cast at hroom ⊢; omega) hinv
      simp only [Clone.reads, hstep, readsAtZero, hne, if_false, Nat.zero_add, returnedNames,
        Nat.lt_irrefl]
      exact ⟨i1, js, i2, i3, i4, i5⟩
    · have hz : offset = 0 := by omega
      subst hz
      have hstep := Clone_Read_zero t buf (c + 1) (by rw [hc]; push_cast; ring)
        (by push_cast at hroom ⊢; omega)
        (fun name hn => by
          obtain ⟨j, hj, hname⟩ := hinv name hn
          exact ⟨j, by omega, hname⟩)
      have hpos : 0 < (decimal (c + 1)).length :=
        List.length_pos.mpr (decimal_ne_nil (c + 1))
      by_cases hb : buf.length < (decimal (c + 1)).length
      · rw [if_pos hb] at hstep
        obtain ⟨i1, js, i2, i3, i4, i5⟩ := ih { clones := ((c + 1 : Nat) : Int), dirs := t.dirs }
          (c + 1) rfl (by push_cast at hroom ⊢; omega)
          (fun name hn => by
            obtain ⟨j, hj, hname⟩ := hinv name hn
            exact ⟨j, by omega, hname⟩)
        simp only [Clone.reads, hstep, readsAtZero, if_true, returnedNames]
        push_cast at i1 i2 i5 ⊢
        refine ⟨by rw [i1]; ring, js, i2, i3, fun j hj => ?_, i5⟩
        have := i4 j hj
        omega
      · rw [if_neg hb] at hstep
        obtain ⟨i1, js, i2, i3, i4, i5⟩ := ih
          { clones := ((c + 1 : Nat) : Int),
            dirs := (decimal (c + 1), { datafile := [], files := [] }) :: t.dirs }
          (c + 1) rfl (by push_cast at hroom ⊢; omega)
          (fun name hn => by
            simp only [List.map_cons, List.mem_cons] at hn
            rcases hn with rfl | hn
            · exact ⟨c + 1, le_refl _, rfl⟩
            · obtain ⟨j, hj, hname⟩ := hinv name hn
              exact ⟨j, by omega, hname⟩)
        have htake : (decimal (c + 1) ++ buf.drop (decimal (c + 1)).length).take
            (decimal (c + 1)).length = decimal (c + 1) := List.take_left' rfl
        simp only [Clone.reads, hstep, readsAtZero, if_true, returnedNames, hpos, htake]
        push_cast at i1 i2 i5 ⊢
        refine ⟨by rw [i1]; ring, (c + 1) :: js, by simp [i2], ?_, ?_, ?_⟩
        · rw [List.pairwise_cons]
          exact ⟨fun j hj => (i4 j hj).1, i3⟩
        · intro j hj
          simp only [List.mem_cons] at hj
          rcases hj with rfl | hj
          · omega
          · have := i4 j hj
            omega
        · rw [i5]
          simp

/-- C15: after any run of reads of a fresh clone file (fewer than 2^63), the
counter equals the number of reads at offset 0, the names returned are the
decimal strings of strictly increasing positive numbers, pairwise distinct,
and they name the session directories; the next read returns 0 bytes and
changes nothing at a nonzero offset, and at offset 0 adds one to the counter
and, with room in the buffer, creates and returns the directory named by the
new counter value (without room the read fails and no directory is left);
the first two reads with room return `1` and `2`. -/
theorem Clone_Read_session_names (reqs : List (List Nat × Nat)) (buf : List Nat) (offset : Nat)
    (hn : (reqs.length : Int) + 1 < 2 ^ 63) :
    (Clone.reads reqs freshTree).2.clones = (readsAtZero reqs : Int) ∧
    (∃ js : List Nat,
      returnedNames (Clone.reads reqs freshTree).1 = js.map decimal ∧
      js.Pairwise (fun a b => a < b) ∧ (∀ j ∈ js, 0 < j ∧ j ≤ readsAtZero reqs) ∧
      (Clone.reads reqs freshTree).2.dirs.map Prod.fst = (js.map decimal).reverse) ∧
    (returnedNames (Clone.reads reqs freshTree).1).Pairwise (fun a b => a ≠ b) ∧
    (0 < offset →
      Clone.Read (Clone.reads reqs freshTree).2 buf offset
        = ((.ok 0, buf), (Clone.reads reqs freshTree).2)) ∧
    (offset = 0 →
      (Clone.Read (Clone.reads reqs freshTree).2 buf offset).2.clones
        = (Clone.reads reqs freshTree).2.clones + 1 ∧
      ((decimal (readsAtZero reqs + 1)).length ≤ buf.length →
        Clone.Read (Clone.reads reqs freshTree).2 buf offset
          = ((.ok (decimal (readsAtZero reqs + 1)).length,
              decimal (readsAtZero reqs + 1)
                ++ buf.drop (decimal (readsAtZero reqs + 1)).length),
             { clones := (Clone.reads reqs freshTree).2.clones + 1,
               dirs := (decimal (readsAtZero reqs + 1), { datafile := [], files := [] })
                 :: (Clone.reads reqs freshTree).2.dirs })) ∧
      (buf.length < (decimal (readsAtZero reqs + 1)).length →
        Clone.Read (Clone.reads reqs freshTree).2 buf offset
          = ((.error .notEnoughBuffer, buf),
             { clones := (Clone.reads reqs freshTree).2.clones + 1,
               dirs := (Clone.reads reqs freshTree).2.dirs }))) ∧
    (∀ b1 b2 : List Nat, 1 ≤ b1.length → 1 ≤ b2.length →
      Clone.reads [(b1, 0), (b2, 0)] freshTree
        = ([(.ok 1, 49 :: b1.drop 1), (.ok 1, 50 :: b2.drop 1)],
           { clones := 2, dirs := [([50], { datafile := [], files := [] }),
                                   ([49], { datafile := [], files := [] })] })) := by
  have hle : readsAtZero reqs ≤ reqs.length := by
    clear hn
    induction reqs with
    | nil => simp [readsAtZero]
    | cons q rest ih =>
      obtain ⟨b, o⟩ := q
      simp only [readsAtZero, List.length_cons]
      split <;> omega
  obtain ⟨h1, js, h2, h3, h4, h5⟩ := Clone_reads_spec reqs freshTree 0 rfl
    (by push_cast; omega) (by simp [freshTree])
  simp only [Nat.zero_add, freshTree, List.map_nil, List.append_nil] at h1 h4 h5
  have h2' := h2
  simp only [freshTree] at h2'
  simp only [freshTree]
  have hinvt : ∀ name ∈ (Clone.reads reqs { clones := 0, dirs := [] }).2.dirs.map Prod.fst,
      ∃ j : Nat, j < readsAtZero reqs + 1 ∧ name = decimal j := by
    intro name hname
    rw [h5, List.mem_reverse, List.mem_map] at hname
    obtain ⟨j, hj, rfl⟩ := hname
    exact ⟨j, by have := h4 j hj; omega, rfl⟩
  have hzero := Clone_Read_zero (Clone.reads reqs { clones := 0, dirs := [] }).2 buf
    (readsAtZero reqs + 1) (by rw [h1]; push_cast; ring) (by push_cast; omega) hinvt
  refine ⟨h1, ⟨js, h2', h3, fun j hj => ⟨by have := h4 j hj; omega, (h4 j hj).2⟩, h5⟩, ?_,
    fun ho => Clone_Read_nonzero _ buf offset ho, ?_, ?_⟩
  · rw [h2', List.pairwise_map]
    exact h3.imp (fun hab hd => by have := decimal_injective _ _ hd; omega)
  · intro ho
    subst ho
    have hcl : (((readsAtZero reqs + 1 : Nat) : Int))
        = (Clone.reads reqs { clones := 0, dirs := [] }).2.clones + 1 := by
      rw [h1]; push_cast; ring
    refine ⟨?_, fun hroom => ?_, fun hshort => ?_⟩
    · rw [hzero]
      split <;> exact hcl
    · rw [hzero, if_neg (by omega), hcl]
    · rw [hzero, if_pos hshort, hcl]
  · intro b1 b2 hb1 hb2
    have d1 : decimal 1 = [49] := by decide
    have d2 : decimal 2 = [50] := by decide
    have r1 := Clone_Read_zero { clones := 0, dirs := [] } b1 1 (by norm_num) (by norm_num)
      (by simp)
    rw [d1, if_neg (by show ¬ b1.length < 1; omega)] at r1
    have r2 := Clone_Read_zero
      { clones := ((1 : Nat) : Int), dirs := [([49], { datafile := [], files := [] })] } b2 2
      (by norm_num) (by norm_num) (by
        intro name hname
        simp only [List.map_cons, List.map_nil, List.mem_singleton] at hname
        exact ⟨1, by omega, by rw [hname, d1]⟩)
    rw [d2, if_neg (by show ¬ b2.length < 1; omega)] at r2
    simp only [Clone.reads, r1, r2]
    simp

/-- C15 on a fresh clone file read at offset 0, at offset 3, at offset 0 with
an empty buffer, and at offset 0 again: the counter ends at 3 and the names
returned are `1` and `3`. -/
theorem Clone_Read_session_names_witness :
    (Clone.reads [(List.replicate 4 0, 0), (List.replicate 4 0, 3), ([], 0),
        (List.replicate 4 0, 0)] freshTree).2.clones
      = (readsAtZero [(List.replicate 4 0, 0), (List.replicate 4 0, 3), ([], 0),
          (List.replicate 4 0, 0)] : Int) ∧
    Clone.reads [(List.replicate 4 0, 0), (List.replicate 4 0, 3), ([], 0),
        (List.replicate 4 0, 0)] freshTree
      = ([(.ok 1, [49, 0, 0, 0]), (.ok 0, [0, 0, 0, 0]), (.error .notEnoughBuffer, []),
          (.ok 1, [51, 0, 0, 0])],
         { clones := 3, dirs := [([51], { datafile := [], files := [] }),
                                 ([49], { datafile := [], files := [] })] }) :=
  ⟨(Clone_Read_session_names [(List.replicate 4 0, 0), (List.replicate 4 0, 3), ([], 0),
      (List.replicate 4 0, 0)] (List.replicate 4 0) 0 (by decide)).1, by decide⟩

/-! ## Reading the control file back -/

/-- A successful write of a positive count leaves the name of the data file as
the content of the control file, and that file in the directory. -/
theorem CtlFile_Write_ok_datafile (d d2 : Session) (now : WallTime) (data : List Nat)
    (s s1 : State) (count k : Int)
    (hparse : atoi data = some count) (hpos : 0 < count)
    (hwrite : CtlFile.Write d now data s = .ret (.ok k, d2) s1) :
    d2.datafile = dataFileName now ∧ k = data.length ∧
    dataFileName now ∈ d2.files.map Prod.fst := by
  have hnp : ¬ count ≤ 0 := by omega
  have hcopy : copyInto (List.replicate (dataFileName now).length 0) (dataFileName now)
      = dataFileName now := by
    unfold copyInto
    rw [List.length_replicate, List.take_length, List.drop_of_length_le (by simp),
      List.append_nil]
  simp only [CtlFile.Write, hparse, hnp, if_false] at hwrite
  cases hadd : d.add (dataFileName now) { uuids := [], Length := 0 } with
  | none => simp [hadd] at hwrite
  | some d1 =>
    have hd1 : d1 = { d with files := (dataFileName now, { uuids := [], Length := 0 }) :: d.files } := by
      unfold Session.add at hadd
      split at hadd
      · exact absurd hadd (by simp)
      · exact (Option.some.inj hadd).symm
    simp only [hadd] at hwrite
    cases hfill : writeFill count.toNat 0 (List.replicate count.toNat []) s with
    | ret a s2 =>
      obtain ⟨e, uuids⟩ := a
      cases e with
      | none =>
        simp only [hfill, hcopy, Outcome.ret.injEq, Prod.mk.injEq, Except.ok.injEq] at hwrite
        obtain ⟨⟨hk, hd2⟩, _⟩ := hwrite
        subst hd2
        refine ⟨rfl, hk.symm, ?_⟩
        rw [hd1]
        simp [Session.setHead]
      | some e => simp [hfill] at hwrite
    | blocked => simp [hfill] at hwrite
    | exit => simp [hfill] at hwrite
    | panic => simp [hfill] at hwrite

/-- C16: a control file whose content is still empty reads as 0 bytes at any
offset; after a successful write of a positive count the content is the name
`N` of the data file just created: a read at offset 0 returns
`min(len(buf), len(N))` and puts that many first bytes of `N` at the start of
the buffer (all of `N` when the buffer has room), and a read at a nonzero
offset returns 0 bytes and leaves the buffer. -/
theorem CtlFile_write_then_read (d d2 : Session) (now : WallTime) (data : List Nat)
    (s s1 : State) (count k : Int) (buf : List Nat) (offset : Nat)
    (hparse : atoi data = some count) (hpos : 0 < count)
    (hwrite : CtlFile.Write d now data s = .ret (.ok k, d2) s1) :
    (∀ d0 : Session, d0.datafile = [] → CtlFile.Read d0 buf offset = (0, buf)) ∧
    d2.datafile = dataFileName now ∧ dataFileName now ∈ d2.files.map Prod.fst ∧
    ((dataFileName now).length ≤ buf.length →
      CtlFile.Read d2 buf 0
        = ((dataFileName now).length, dataFileName now ++ buf.drop (dataFileName now).length) ∧
      (CtlFile.Read d2 buf 0).2.take (dataFileName now).length = dataFileName now) ∧
    (buf.length < (dataFileName now).length →
      CtlFile.Read d2 buf 0 = (buf.length, (dataFileName now).take buf.length)) ∧
    (0 < offset → CtlFile.Read d2 buf offset = (0, buf)) := by
  obtain ⟨h1, _, h3⟩ := CtlFile_Write_ok_datafile d d2 now data s s1 count k hparse hpos hwrite
  refine ⟨?_, h1, h3, ?_, ?_, ?_⟩
  · intro d0 h0
    by_cases ho : offset > 0
    · simp [CtlFile.Read, ho]
    · simp [CtlFile.Read, ho, h0, copyInto]
  · intro hroom
    have hr : CtlFile.Read d2 buf 0
        = ((dataFileName now).length, dataFileName now ++ buf.drop (dataFileName now).length) := by
      have hlt : ¬ buf.length < (dataFileName now).length := by omega
      simp only [CtlFile.Read, h1, Nat.lt_irrefl, if_false, hlt, copyInto]
      rw [List.take_of_length_le hroom]
    exact ⟨hr, by rw [hr]; exact List.take_left' rfl⟩
  · intro hshort
    simp only [CtlFile.Read, h1, Nat.lt_irrefl, if_false, hshort, if_true, copyInto]
    rw [List.drop_of_length_le (by omega), List.append_nil]
  · intro ho
    simp [CtlFile.Read, ho]

/-- C16 on the payload `2` written at 2026-11-04 09:05:07: the control file then
reads `2026114957` into a 12-byte buffer. -/
theorem CtlFile_write_then_read_witness :
    CtlFile.Read
        { datafile := [50, 48, 50, 54, 49, 49, 52, 57, 53, 55],
          files := [([50, 48, 50, 54, 49, 49, 52, 57, 53, 55],
            { uuids := [[48, 48, 48, 48, 48, 48, 48, 48, 48, 50, 56, 54, 53, 48, 48, 48, 10],
                        [48, 48, 48, 48, 48, 48, 48, 48, 48, 50, 56, 54, 53, 48, 48, 49, 10]],
              Length := 34 })] }
        (List.replicate 12 0) 0
      = ((dataFileName ⟨2026, 11, 4, 9, 5, 7⟩).length,
         dataFileName ⟨2026, 11, 4, 9, 5, 7⟩
           ++ (List.replicate 12 0).drop (dataFileName ⟨2026, 11, 4, 9, 5, 7⟩).length) ∧
    CtlFile.Read { datafile := [], files := [] } (List.replicate 12 0) 0
      = (0, List.replicate 12 0) :=
  ⟨((CtlFile_write_then_read { datafile := [], files := [] }
      { datafile := [50, 48, 50, 54, 49, 49, 52, 57, 53, 55],
        files := [([50, 48, 50, 54, 49, 49, 52, 57, 53, 55],
          { uuids := [[48, 48, 48, 48, 48, 48, 48, 48, 48, 50, 56, 54, 53, 48, 48, 48, 10],
                      [48, 48, 48, 48, 48, 48, 48, 48, 48, 50, 56, 54, 53, 48, 48, 49, 10]],
            Length := 34 })] }
      ⟨2026, 11, 4, 9, 5, 7⟩ [50]
      (initState 5 3 [twepoch + 10, twepoch + 10, twepoch + 11])
      { wid := 5, did := 3, lts := twepoch + 10, seq := 1, rqs := 0, ids := 0,
        clock := [twepoch + 11] }
      2 1 (List.replicate 12 0) 0 (by decide) (by decide) (by decide)).2.2.2.1 (by decide)).1,
    by decide⟩


end Noeqd
